import Mathlib

/-!
Verification development for the rspamd HTML normalizer / phishing detector
core (src/libserver/html.c, src/libmime/message.c).

The embedding is shallow: C byte buffers become `List Char` (one `Char` per
byte), machine integers become `Nat`/`Int` with explicit truncation where the
C code can overflow, and external collaborators (URL grammar parser, ICU IDN
conversion, Unicode normalisation, GLib Unicode classification) are passed in
as function parameters, mirroring the specification's treatment of them as
black-box contracts.
-/

namespace Rspamd

/-- ASCII byte-level space test, mirroring GLib `g_ascii_isspace`. -/
def g_ascii_isspace (c : Char) : Bool :=
  c = ' ' ∨ c = '\t' ∨ c = '\n' ∨ c = Char.ofNat 11 ∨ c = Char.ofNat 12 ∨ c = '\r'

/-- ASCII alphabetic test, mirroring GLib `g_ascii_isalpha`. -/
def g_ascii_isalpha (c : Char) : Bool :=
  ('a' ≤ c ∧ c ≤ 'z') ∨ ('A' ≤ c ∧ c ≤ 'Z')

/-- ASCII digit test, mirroring GLib `g_ascii_isdigit`. -/
def g_ascii_isdigit (c : Char) : Bool :=
  '0' ≤ c ∧ c ≤ '9'

/-- ASCII graphic-character test (printable, not space), mirroring GLib
`g_ascii_isgraph`. -/
def g_ascii_isgraph (c : Char) : Bool :=
  0x21 ≤ c.toNat ∧ c.toNat ≤ 0x7e

/-- ASCII lower-casing of one byte, mirroring GLib `g_ascii_tolower`. -/
def g_ascii_tolower (c : Char) : Char :=
  if 'A' ≤ c ∧ c ≤ 'Z' then Char.ofNat (c.toNat + 32) else c

/-- Case-insensitive ASCII equality of two byte sequences of equal length.
`g_ascii_strcasecmp l1 l2 = 0` for NUL-free sequences is exactly this
predicate, and `rspamd_lc_cmp` (libutil, outside the reviewed sources) is the
same comparison over an explicit length. -/
def ascii_caseq (l1 l2 : List Char) : Bool :=
  l1.map g_ascii_tolower = l2.map g_ascii_tolower

/-- Hexadecimal digit value of an ASCII byte, `none` for non-hex bytes. -/
def hexDigitVal (c : Char) : Option Nat :=
  if '0' ≤ c ∧ c ≤ '9' then some (c.toNat - '0'.toNat)
  else if 'a' ≤ c ∧ c ≤ 'f' then some (c.toNat - 'a'.toNat + 10)
  else if 'A' ≤ c ∧ c ≤ 'F' then some (c.toNat - 'A'.toNat + 10)
  else none

/-- Digit value of an ASCII byte in the given base (8, 10 or 16), as accepted
by `strtoul`. -/
def baseDigitVal (base : Nat) (c : Char) : Option Nat :=
  match hexDigitVal c with
  | some v => if v < base then some v else none
  | none => none

/-- `ULONG_MAX` on the 64-bit platforms rspamd targets. -/
def ulongMax : Nat := 2 ^ 64 - 1

/-- Digit-consuming loop of `strtoul`: accumulates the value of a maximal run
of base digits and returns the unconsumed rest together with a flag telling
whether at least one digit was consumed. The accumulator is exact; the
overflow clamp of `strtoul` is applied by the caller. -/
def strtoulDigits (base : Nat) : List Char → Nat → Nat × List Char × Bool
  | [], acc => (acc, [], false)
  | c :: rest, acc =>
    match baseDigitVal base c with
    | some v =>
      let r := strtoulDigits base rest (acc * base + v)
      (r.1, r.2.1, true)
    | none => (acc, c :: rest, false)

/-- Sign handling of `strtoul`: an optional leading `-` or `+`. -/
def strtoulSign : List Char → Bool × List Char
  | '-' :: r => (true, r)
  | '+' :: r => (false, r)
  | r => (false, r)

/-- Base-16 `0x`/`0X` prefix skipping of `strtoul`, applied when a hex digit
follows the prefix. -/
def strtoulBody (base : Nat) (s : List Char) : List Char :=
  if base = 16 then
    match s with
    | '0' :: x :: r =>
      if (x = 'x' ∨ x = 'X') ∧ (hexDigitVal (r.headD ' ')).isSome then r else s
    | _ => s
  else s

def strtoulModel (s : List Char) (base : Nat) : Nat × List Char :=
  let signed := strtoulSign (s.dropWhile (fun c => g_ascii_isspace c))
  let parsed := strtoulDigits base (strtoulBody base signed.2) 0
  if parsed.2.2 then
    (if parsed.1 > ulongMax then ulongMax
     else if signed.1 then (2 ^ 64 - parsed.1 % 2 ^ 64) % 2 ^ 64
     else parsed.1, parsed.2.1)
  else (0, s)

/-- One named/numeric HTML entity: name, numeric code point and optional ASCII
replacement, mirroring `struct _entity`. -/
structure Entity where
  name : String
  code : Nat
  replacement : Option String
deriving DecidableEq, Repr

/-- Chunk 1 of the static entity table (see `entities_defs`). -/
def entities_defs_1 : List Entity := [
  ⟨"quot", 34, some "\""⟩,
  ⟨"amp", 38, some "&"⟩,
  ⟨"apos", 39, some "'"⟩,
  ⟨"lt", 60, some "<"⟩,
  ⟨"gt", 62, some ">"⟩,
  ⟨"nbsp", 160, some " "⟩,
  ⟨"iexcl", 161, some "!"⟩,
  ⟨"cent", 162, some "cent"⟩,
  ⟨"pound", 163, some "pound"⟩,
  ⟨"curren", 164, some "current"⟩,
  ⟨"yen", 165, some "yen"⟩,
  ⟨"brvbar", 166, none⟩,
  ⟨"sect", 167, none⟩,
  ⟨"uml", 168, some "uml"⟩,
  ⟨"copy", 169, some "c"⟩,
  ⟨"ordf", 170, none⟩,
  ⟨"laquo", 171, some "\""⟩,
  ⟨"not", 172, some "!"⟩,
  ⟨"shy", 173, none⟩,
  ⟨"reg", 174, some "r"⟩,
  ⟨"macr", 175, none⟩,
  ⟨"deg", 176, some "deg"⟩,
  ⟨"plusmn", 177, some "+-"⟩,
  ⟨"sup2", 178, some "2"⟩,
  ⟨"sup3", 179, some "3"⟩,
  ⟨"acute", 180, none⟩,
  ⟨"micro", 181, none⟩,
  ⟨"para", 182, none⟩,
  ⟨"middot", 183, some "."⟩,
  ⟨"cedil", 184, none⟩,
  ⟨"sup1", 185, some "1"⟩,
  ⟨"ordm", 186, none⟩
]

/-- Chunk 2 of the static entity table (see `entities_defs`). -/
def entities_defs_2 : List Entity := [
  ⟨"raquo", 187, some "\""⟩,
  ⟨"frac14", 188, some "1/4"⟩,
  ⟨"frac12", 189, some "1/2"⟩,
  ⟨"frac34", 190, some "3/4"⟩,
  ⟨"iquest", 191, some "i"⟩,
  ⟨"Agrave", 192, some "a"⟩,
  ⟨"Aacute", 193, some "a"⟩,
  ⟨"Acirc", 194, some "a"⟩,
  ⟨"Atilde", 195, some "a"⟩,
  ⟨"Auml", 196, some "a"⟩,
  ⟨"Aring", 197, some "a"⟩,
  ⟨"AElig", 198, some "a"⟩,
  ⟨"Ccedil", 199, some "c"⟩,
  ⟨"Egrave", 200, some "e"⟩,
  ⟨"Eacute", 201, some "e"⟩,
  ⟨"Ecirc", 202, some "e"⟩,
  ⟨"Euml", 203, some "e"⟩,
  ⟨"Igrave", 204, some "i"⟩,
  ⟨"Iacute", 205, some "i"⟩,
  ⟨"Icirc", 206, some "i"⟩,
  ⟨"Iuml", 207, some "i"⟩,
  ⟨"ETH", 208, some "e"⟩,
  ⟨"Ntilde", 209, some "n"⟩,
  ⟨"Ograve", 210, some "o"⟩,
  ⟨"Oacute", 211, some "o"⟩,
  ⟨"Ocirc", 212, some "o"⟩,
  ⟨"Otilde", 213, some "o"⟩,
  ⟨"Ouml", 214, some "o"⟩,
  ⟨"times", 215, some "t"⟩,
  ⟨"Oslash", 216, some "o"⟩,
  ⟨"Ugrave", 217, some "u"⟩,
  ⟨"Uacute", 218, some "u"⟩
]

/-- Chunk 3 of the static entity table (see `entities_defs`). -/
def entities_defs_3 : List Entity := [
  ⟨"Ucirc", 219, some "u"⟩,
  ⟨"Uuml", 220, some "u"⟩,
  ⟨"Yacute", 221, some "y"⟩,
  ⟨"THORN", 222, some "t"⟩,
  ⟨"szlig", 223, some "s"⟩,
  ⟨"agrave", 224, some "a"⟩,
  ⟨"aacute", 225, some "a"⟩,
  ⟨"acirc", 226, some "a"⟩,
  ⟨"atilde", 227, some "a"⟩,
  ⟨"auml", 228, some "a"⟩,
  ⟨"aring", 229, some "a"⟩,
  ⟨"aelig", 230, some "a"⟩,
  ⟨"ccedil", 231, some "c"⟩,
  ⟨"egrave", 232, some "e"⟩,
  ⟨"eacute", 233, some "e"⟩,
  ⟨"ecirc", 234, some "e"⟩,
  ⟨"euml", 235, some "e"⟩,
  ⟨"igrave", 236, some "e"⟩,
  ⟨"iacute", 237, some "e"⟩,
  ⟨"icirc", 238, some "e"⟩,
  ⟨"iuml", 239, some "e"⟩,
  ⟨"eth", 240, some "e"⟩,
  ⟨"ntilde", 241, some "n"⟩,
  ⟨"ograve", 242, some "o"⟩,
  ⟨"oacute", 243, some "o"⟩,
  ⟨"ocirc", 244, some "o"⟩,
  ⟨"otilde", 245, some "o"⟩,
  ⟨"ouml", 246, some "o"⟩,
  ⟨"divide", 247, some "/"⟩,
  ⟨"oslash", 248, some "/"⟩,
  ⟨"ugrave", 249, some "u"⟩,
  ⟨"uacute", 250, some "u"⟩
]

/-- Chunk 4 of the static entity table (see `entities_defs`). -/
def entities_defs_4 : List Entity := [
  ⟨"ucirc", 251, some "u"⟩,
  ⟨"uuml", 252, some "u"⟩,
  ⟨"yacute", 253, some "y"⟩,
  ⟨"thorn", 254, some "t"⟩,
  ⟨"yuml", 255, some "y"⟩,
  ⟨"fnof", 402, some "f"⟩,
  ⟨"Alpha", 913, some "alpha"⟩,
  ⟨"Beta", 914, some "beta"⟩,
  ⟨"Gamma", 915, some "gamma"⟩,
  ⟨"Delta", 916, some "delta"⟩,
  ⟨"Epsilon", 917, some "epsilon"⟩,
  ⟨"Zeta", 918, some "zeta"⟩,
  ⟨"Eta", 919, some "eta"⟩,
  ⟨"Theta", 920, some "theta"⟩,
  ⟨"Iota", 921, some "iota"⟩,
  ⟨"Kappa", 922, some "kappa"⟩,
  ⟨"Lambda", 923, some "lambda"⟩,
  ⟨"Mu", 924, some "mu"⟩,
  ⟨"Nu", 925, some "nu"⟩,
  ⟨"Xi", 926, some "xi"⟩,
  ⟨"Omicron", 927, some "omicron"⟩,
  ⟨"Pi", 928, some "pi"⟩,
  ⟨"Rho", 929, some "rho"⟩,
  ⟨"Sigma", 931, some "sigma"⟩,
  ⟨"Tau", 932, some "tau"⟩,
  ⟨"Upsilon", 933, some "upsilon"⟩,
  ⟨"Phi", 934, some "phi"⟩,
  ⟨"Chi", 935, some "chi"⟩,
  ⟨"Psi", 936, some "psi"⟩,
  ⟨"Omega", 937, some "omega"⟩,
  ⟨"alpha", 945, some "alpha"⟩,
  ⟨"beta", 946, some "beta"⟩
]

/-- Chunk 5 of the static entity table (see `entities_defs`). -/
def entities_defs_5 : List Entity := [
  ⟨"gamma", 947, some "gamma"⟩,
  ⟨"delta", 948, some "delta"⟩,
  ⟨"epsilon", 949, some "epsilon"⟩,
  ⟨"zeta", 950, some "zeta"⟩,
  ⟨"eta", 951, some "eta"⟩,
  ⟨"theta", 952, some "theta"⟩,
  ⟨"iota", 953, some "iota"⟩,
  ⟨"kappa", 954, some "kappa"⟩,
  ⟨"lambda", 955, some "lambda"⟩,
  ⟨"mu", 956, some "mu"⟩,
  ⟨"nu", 957, some "nu"⟩,
  ⟨"xi", 958, some "xi"⟩,
  ⟨"omicron", 959, some "omicron"⟩,
  ⟨"pi", 960, some "pi"⟩,
  ⟨"rho", 961, some "rho"⟩,
  ⟨"sigmaf", 962, some "sigmaf"⟩,
  ⟨"sigma", 963, some "sigma"⟩,
  ⟨"tau", 964, some "tau"⟩,
  ⟨"upsilon", 965, some "upsilon"⟩,
  ⟨"phi", 966, some "phi"⟩,
  ⟨"chi", 967, some "chi"⟩,
  ⟨"psi", 968, some "psi"⟩,
  ⟨"omega", 969, some "omega"⟩,
  ⟨"thetasym", 977, some "thetasym"⟩,
  ⟨"upsih", 978, some "upsih"⟩,
  ⟨"piv", 982, some "piv"⟩,
  ⟨"bull", 8226, some "bull"⟩,
  ⟨"hellip", 8230, some "..."⟩,
  ⟨"prime", 8242, some "'"⟩,
  ⟨"Prime", 8243, some "'"⟩,
  ⟨"oline", 8254, some "-"⟩,
  ⟨"frasl", 8260, none⟩
]

/-- Chunk 6 of the static entity table (see `entities_defs`). -/
def entities_defs_6 : List Entity := [
  ⟨"weierp", 8472, none⟩,
  ⟨"image", 8465, none⟩,
  ⟨"real", 8476, none⟩,
  ⟨"trade", 8482, none⟩,
  ⟨"alefsym", 8501, some "a"⟩,
  ⟨"larr", 8592, none⟩,
  ⟨"uarr", 8593, none⟩,
  ⟨"rarr", 8594, none⟩,
  ⟨"darr", 8595, none⟩,
  ⟨"harr", 8596, none⟩,
  ⟨"crarr", 8629, none⟩,
  ⟨"lArr", 8656, none⟩,
  ⟨"uArr", 8657, none⟩,
  ⟨"rArr", 8658, none⟩,
  ⟨"dArr", 8659, none⟩,
  ⟨"hArr", 8660, none⟩,
  ⟨"forall", 8704, none⟩,
  ⟨"part", 8706, none⟩,
  ⟨"exist", 8707, none⟩,
  ⟨"empty", 8709, none⟩,
  ⟨"nabla", 8711, none⟩,
  ⟨"isin", 8712, none⟩,
  ⟨"notin", 8713, none⟩,
  ⟨"ni", 8715, none⟩,
  ⟨"prod", 8719, none⟩,
  ⟨"sum", 8721, some "E"⟩,
  ⟨"minus", 8722, some "-"⟩,
  ⟨"lowast", 8727, none⟩,
  ⟨"radic", 8730, none⟩,
  ⟨"prop", 8733, none⟩,
  ⟨"infin", 8734, none⟩,
  ⟨"ang", 8736, some "'"⟩
]

/-- Chunk 7 of the static entity table (see `entities_defs`). -/
def entities_defs_7 : List Entity := [
  ⟨"and", 8743, some "&"⟩,
  ⟨"or", 8744, some "|"⟩,
  ⟨"cap", 8745, none⟩,
  ⟨"cup", 8746, none⟩,
  ⟨"gint", 8747, none⟩,
  ⟨"there4", 8756, none⟩,
  ⟨"sim", 8764, none⟩,
  ⟨"cong", 8773, none⟩,
  ⟨"asymp", 8776, none⟩,
  ⟨"ne", 8800, some "!="⟩,
  ⟨"equiv", 8801, some "=="⟩,
  ⟨"le", 8804, some "<="⟩,
  ⟨"ge", 8805, some ">="⟩,
  ⟨"sub", 8834, none⟩,
  ⟨"sup", 8835, none⟩,
  ⟨"nsub", 8836, none⟩,
  ⟨"sube", 8838, none⟩,
  ⟨"supe", 8839, none⟩,
  ⟨"oplus", 8853, none⟩,
  ⟨"otimes", 8855, none⟩,
  ⟨"perp", 8869, none⟩,
  ⟨"sdot", 8901, none⟩,
  ⟨"lceil", 8968, none⟩,
  ⟨"rceil", 8969, none⟩,
  ⟨"lfloor", 8970, none⟩,
  ⟨"rfloor", 8971, none⟩,
  ⟨"lang", 9001, none⟩,
  ⟨"rang", 9002, none⟩,
  ⟨"loz", 9674, none⟩,
  ⟨"spades", 9824, none⟩,
  ⟨"clubs", 9827, none⟩,
  ⟨"hearts", 9829, none⟩
]

/-- Chunk 8 of the static entity table (see `entities_defs`). -/
def entities_defs_8 : List Entity := [
  ⟨"diams", 9830, none⟩,
  ⟨"OElig", 338, none⟩,
  ⟨"oelig", 339, none⟩,
  ⟨"Scaron", 352, none⟩,
  ⟨"scaron", 353, none⟩,
  ⟨"Yuml", 376, none⟩,
  ⟨"circ", 710, none⟩,
  ⟨"tilde", 732, none⟩,
  ⟨"ensp", 8194, none⟩,
  ⟨"emsp", 8195, none⟩,
  ⟨"thinsp", 8201, none⟩,
  ⟨"zwnj", 8204, none⟩,
  ⟨"zwj", 8205, none⟩,
  ⟨"lrm", 8206, none⟩,
  ⟨"rlm", 8207, none⟩,
  ⟨"ndash", 8211, some "-"⟩,
  ⟨"mdash", 8212, some "-"⟩,
  ⟨"lsquo", 8216, some "'"⟩,
  ⟨"rsquo", 8217, some "'"⟩,
  ⟨"sbquo", 8218, some "\""⟩,
  ⟨"ldquo", 8220, some "\""⟩,
  ⟨"rdquo", 8221, some "\""⟩,
  ⟨"bdquo", 8222, some "\""⟩,
  ⟨"dagger", 8224, some "T"⟩,
  ⟨"Dagger", 8225, some "T"⟩,
  ⟨"permil", 8240, none⟩,
  ⟨"lsaquo", 8249, some "\""⟩,
  ⟨"rsaquo", 8250, some "\""⟩,
  ⟨"euro", 8364, some "E"⟩
]

/-- The static entity table `entities_defs` of html.c, in declaration order
(split into chunks to keep elaboration linear). -/
def entities_defs : List Entity :=
  entities_defs_1 ++ entities_defs_2 ++ entities_defs_3 ++ entities_defs_4 ++ entities_defs_5 ++ entities_defs_6 ++ entities_defs_7 ++ entities_defs_8

/-- Lookup of a (NUL-truncated) entity name in the name-sorted view of the
entity table. The C code runs `bsearch` with `entity_cmp`
(`g_ascii_strcasecmp` on names) over the table `qsort`-ed with the same
comparator, which succeeds exactly when some table entry compares equal to the
key, so it is modelled as a linear search under the same equality. For the
four names whose capitalised and lower-case variants carry different
replacements (`Igrave`/`igrave`, `Iacute`/`iacute`, `Icirc`/`icirc`,
`Iuml`/`iuml`) the C result depends on the unspecified tie order of `qsort`;
this model deterministically takes the first entry in declaration order. -/
def findEntityByName (nm : List Char) : Option Entity :=
  entities_defs.find? (fun en => ascii_caseq en.name.toList nm)

/-- Lookup by numeric code in the code-sorted view `entities_defs_num`.
Codes in the table are pairwise distinct, so the `bsearch` with
`entity_cmp_num` is equivalent to this search. The key is the 32-bit value of
the C `gint val`. -/
def findEntityByCode (code : Nat) : Option Entity :=
  entities_defs.find? (fun en => en.code = code)

/-- UTF-8 encoding of a code point, mirroring GLib `g_unichar_to_utf8`
(including the historical 5- and 6-byte ranges GLib still emits). -/
def g_unichar_to_utf8 (v : Nat) : List Char :=
  if v < 0x80 then [Char.ofNat v]
  else if v < 0x800 then
    [Char.ofNat (0xc0 + v / 0x40), Char.ofNat (0x80 + v % 0x40)]
  else if v < 0x10000 then
    [Char.ofNat (0xe0 + v / 0x1000), Char.ofNat (0x80 + v / 0x40 % 0x40),
     Char.ofNat (0x80 + v % 0x40)]
  else if v < 0x200000 then
    [Char.ofNat (0xf0 + v / 0x40000 % 0x40), Char.ofNat (0x80 + v / 0x1000 % 0x40),
     Char.ofNat (0x80 + v / 0x40 % 0x40), Char.ofNat (0x80 + v % 0x40)]
  else if v < 0x4000000 then
    [Char.ofNat 0xf8, Char.ofNat (0x80 + v / 0x40000 % 0x40),
     Char.ofNat (0x80 + v / 0x1000 % 0x40), Char.ofNat (0x80 + v / 0x40 % 0x40),
     Char.ofNat (0x80 + v % 0x40)]
  else
    [Char.ofNat 0xfc, Char.ofNat (0x80 + v / 0x1000000 % 0x40),
     Char.ofNat (0x80 + v / 0x40000 % 0x40), Char.ofNat (0x80 + v / 0x1000 % 0x40),
     Char.ofNat (0x80 + v / 0x40 % 0x40), Char.ofNat (0x80 + v % 0x40)]

/-- Write a byte sequence into the buffer starting at index `t`, one
`List.set` per byte. As in the C original, writes past the end of the
allocation are not observable through any later read of the function
(`List.set` out of range is the identity). -/
def writeAt (buf : List Char) (t : Nat) : List Char → List Char
  | [] => buf
  | c :: rest => writeAt (buf.set t c) (t + 1) rest

/-- The bytes of the buffer from index `from_` up to (excluding) index `to_`. -/
def slice (buf : List Char) (from_ to_ : Nat) : List Char :=
  (buf.drop from_).take (to_ - from_)

/-- A C string read starting at index `i` of the buffer when the byte at
index `stop` has been overwritten with NUL: the bytes `i ≤ j < stop`, cut at
the first embedded NUL byte. -/
def cString (buf : List Char) (i stop : Nat) : List Char :=
  (slice buf i stop).takeWhile (fun c => c ≠ Char.ofNat 0)

/-- The body of the `&...;` token handler of
`rspamd_html_decode_entitles_inplace` (html.c lines 686-753), given the
buffer, the write index `t`, the index `e` of the `&` byte and the index `h`
of the terminating `;` byte. Returns the updated buffer and write index; the
final restoring write `*h = ';'` of the C code is performed here as well.
`isGraph` abstracts GLib `g_unichar_isgraph` (an external Unicode table). -/
def decodeEntity (isGraph : Nat → Bool) (buf : List Char) (t e h : Nat) :
    List Char × Nat :=
  let nm := cString buf (e + 1) h
  let step : List Char × Nat :=
    if buf.getD (e + 1) ' ' ≠ '#' ∧ (findEntityByName nm).isSome then
      match findEntityByName nm with
      | some found =>
        match found.replacement with
        | some rep => (writeAt buf t rep.toList, t + rep.length)
        | none => (writeAt buf t (slice buf e h), t + (h - e))
      | none => (buf, t)
    else if e + 2 < h then
      let c2 := buf.getD (e + 2) ' '
      let base : Nat := if c2 = 'x' ∨ c2 = 'X' then 16
                        else if c2 = 'o' ∨ c2 = 'O' then 8 else 10
      let digStart := if base = 10 then e + 2 else e + 3
      let parsed := strtoulModel (cString buf digStart h) base
      if parsed.2 ≠ [] then
        (writeAt buf t (slice buf e h), t + (h - e))
      else
        let val32 := parsed.1 % 2 ^ 32
        match findEntityByCode val32 with
        | some found =>
          match found.replacement with
          | some rep => (writeAt buf t rep.toList, t + rep.length)
          | none => (buf, t)
        | none =>
          if isGraph val32 then
            (writeAt buf t (g_unichar_to_utf8 val32),
             t + (g_unichar_to_utf8 val32).length)
          else (buf, t)
    else (buf, t)
  (step.1.set h ';', step.2)

/-- The scanning loop of `rspamd_html_decode_entitles_inplace` (html.c lines
669-760). `st = none` is state 0 (outside an entity); `st = some e` is state 1
with `e` the index of the pending `&`. `l` is the input length; `t` and `h`
are the write and read indices into the shared buffer. Returns the final
buffer and the returned length `t - s`. The loop advances `h` by one on every
iteration and stops as soon as `h ≥ l`, so it runs for exactly `l - h`
iterations; `fuel` is a structural bound on that count (any `fuel ≥ l - h`
gives the exact loop semantics, see `decodeLoop_fuel_congr`). -/
def decodeLoop (isGraph : Nat → Bool) :
    Nat → List Char → Nat → Nat → Nat → Option Nat → List Char × Nat
  | 0, buf, _, t, _, _ => (buf, t)
  | fuel + 1, buf, l, t, h, st =>
    if h < l then
      let c := buf.getD h ' '
      match st with
      | none =>
        if c = '&' then decodeLoop isGraph fuel buf l t (h + 1) (some h)
        else decodeLoop isGraph fuel (buf.set t c) l (t + 1) (h + 1) none
      | some e =>
        if c = ';' ∧ h > e then
          let r := decodeEntity isGraph buf t e h
          decodeLoop isGraph fuel r.1 l r.2 (h + 1) none
        else decodeLoop isGraph fuel buf l t (h + 1) (some e)
    else (buf, t)

/-- `rspamd_html_decode_entitles_inplace (s, len)` with `len = s.length`: the
in-place HTML entity decoder. Returns the final state of the buffer and the
new length `t - s`; the decoded output is the first `t - s` bytes of the
buffer. (The C branch that calls `strlen` when `len == 0` is the trivial case
of an empty buffer here.) -/
def rspamd_html_decode_entitles_inplace (isGraph : Nat → Bool)
    (s : List Char) : List Char × Nat :=
  decodeLoop isGraph s.length s s.length 0 0 none

/-- The decoded output: the first `newLength` bytes of the mutated buffer. -/
def decodeOutput (isGraph : Nat → Bool) (s : List Char) : List Char :=
  let r := rspamd_html_decode_entitles_inplace isGraph s
  r.1.take r.2

/-- The name matches a table entity that has no ASCII replacement. -/
def isNoReplacementName (nm : List Char) : Bool :=
  ((findEntityByName nm).map (fun en => en.replacement.isNone)).getD false

/-- The body (the token bytes between `&` and `;`) is a numeric reference
whose digit run, as consumed by `strtoul`, is followed by trailing garbage. -/
def numericGarbage (body : List Char) : Bool :=
  if 2 ≤ body.length then
    let c2 := body.getD 1 ' '
    let base : Nat := if c2 = 'x' ∨ c2 = 'X' then 16
                      else if c2 = 'o' ∨ c2 = 'O' then 8 else 10
    let dIdx := if base = 10 then 1 else 2
    decide ((strtoulModel (body.drop dIdx) base).2 ≠ [])
  else false


/-!
Part similarity (message.c): `rspamd_words_levenshtein_distance`.
-/

/-- Inner DP loop over `y` of `rspamd_words_levenshtein_distance` (message.c
lines 553-565): walks the remaining hashes of `w1` against the old column
values, carrying the freshly computed cell (`column[y-1]`) as `prev` and
`lastdiag` (the old `column[y-1]`). `eq` is 1 exactly when the two hashes are
EQUAL, and the diagonal cost is `lastdiag + eq * 2`, as in the source. -/
def levRow (h2 : Nat) : List Nat → List Nat → Nat → Nat → List Nat
  | [], _, _, _ => []
  | h1 :: w1t, oldc :: oldt, prev, lastdiag =>
    let eq : Nat := if h1 = h2 then 1 else 0
    let v := min (min (oldc + 1) (prev + 1)) (lastdiag + eq * 2)
    v :: levRow h2 w1t oldt v oldc
  | _ :: _, [], _, _ => []

/-- Outer DP loop over `x` (message.c lines 550-566): for each hash of `w2`,
sets `column[0] = x`, `lastdiag = x - 1` and recomputes the column. -/
def levOuter (w1 : List Nat) : List Nat → Nat → List Nat → List Nat
  | [], _, col => col
  | h2 :: w2t, x, col => levOuter w1 w2t (x + 1) (x :: levRow h2 w1 col.tail x (x - 1))

/-- `rspamd_words_levenshtein_distance` (message.c lines 525-572): single-row
dynamic programming over the two word-hash sequences, with the combined size
cap of 8192 words (returning 0 when exceeded); the result is `column[s1len]`.
The initial column is `column[y] = y` (`column[0] = 0` from `g_malloc0`). -/
def rspamd_words_levenshtein_distance (w1 w2 : List Nat) : Nat :=
  let s1len := w1.length
  let s2len := w2.length
  if s1len + s2len > 8192 then 0
  else (levOuter w1 w2 1 (List.range (s1len + 1))).getD s1len 0

/-!
Static tag-definition table and its lookups (html.c).
-/

/-- The tag content-model and runtime flags consulted by the embedded
functions, mirroring the `flags` bit set of `struct html_tag_def` /
`struct html_tag`. -/
structure TagFlags where
  cmInline : Bool := false
  cmHead : Bool := false
  cmUnique : Bool := false
  cmUnknown : Bool := false
  flBlock : Bool := false
  flClosing : Bool := false
  flClosed : Bool := false
  flIgnore : Bool := false
  flBroken : Bool := false
deriving DecidableEq, Repr

/-- One static tag definition: name, numeric id and flags, mirroring
`struct html_tag_def`. -/
structure html_tag_def where
  name : String
  id : Nat
  flags : TagFlags
deriving DecidableEq, Repr

/-- Chunk 1 of the static tag table (see `tag_defs`). -/
def tag_defs_1 : List html_tag_def := [
  ⟨"a", 0, { }⟩,
  ⟨"abbr", 1, { cmInline := true }⟩,
  ⟨"acronym", 2, { cmInline := true }⟩,
  ⟨"address", 3, { }⟩,
  ⟨"applet", 4, { cmInline := true }⟩,
  ⟨"area", 5, { }⟩,
  ⟨"b", 6, { cmInline := true, flBlock := true }⟩,
  ⟨"base", 7, { cmHead := true }⟩,
  ⟨"basefont", 8, { cmInline := true }⟩,
  ⟨"bdo", 9, { cmInline := true }⟩,
  ⟨"big", 10, { cmInline := true }⟩,
  ⟨"blockquote", 11, { }⟩,
  ⟨"body", 12, { cmUnique := true, flBlock := true }⟩,
  ⟨"br", 13, { cmInline := true }⟩,
  ⟨"button", 14, { cmInline := true, flBlock := true }⟩,
  ⟨"caption", 15, { }⟩,
  ⟨"center", 16, { }⟩,
  ⟨"cite", 17, { cmInline := true }⟩,
  ⟨"code", 18, { cmInline := true }⟩,
  ⟨"col", 19, { }⟩,
  ⟨"colgroup", 20, { }⟩,
  ⟨"dd", 21, { }⟩,
  ⟨"del", 22, { cmInline := true }⟩,
  ⟨"dfn", 23, { cmInline := true }⟩,
  ⟨"dir", 24, { }⟩,
  ⟨"div", 25, { flBlock := true }⟩,
  ⟨"dl", 26, { flBlock := true }⟩,
  ⟨"dt", 27, { }⟩,
  ⟨"em", 28, { cmInline := true }⟩,
  ⟨"fieldset", 29, { }⟩,
  ⟨"font", 30, { flBlock := true }⟩,
  ⟨"form", 31, { }⟩
]

/-- Chunk 2 of the static tag table (see `tag_defs`). -/
def tag_defs_2 : List html_tag_def := [
  ⟨"frame", 32, { }⟩,
  ⟨"frameset", 33, { }⟩,
  ⟨"h1", 34, { }⟩,
  ⟨"h2", 35, { }⟩,
  ⟨"h3", 36, { }⟩,
  ⟨"h4", 37, { }⟩,
  ⟨"h5", 38, { }⟩,
  ⟨"h6", 39, { }⟩,
  ⟨"head", 40, { cmUnique := true }⟩,
  ⟨"hr", 41, { }⟩,
  ⟨"html", 42, { cmUnique := true }⟩,
  ⟨"i", 43, { cmInline := true }⟩,
  ⟨"iframe", 44, { }⟩,
  ⟨"img", 45, { cmInline := true }⟩,
  ⟨"input", 46, { cmInline := true }⟩,
  ⟨"ins", 47, { cmInline := true }⟩,
  ⟨"isindex", 48, { }⟩,
  ⟨"kbd", 49, { cmInline := true }⟩,
  ⟨"label", 50, { cmInline := true }⟩,
  ⟨"legend", 51, { cmInline := true }⟩,
  ⟨"li", 52, { flBlock := true }⟩,
  ⟨"link", 53, { cmHead := true }⟩,
  ⟨"listing", 54, { }⟩,
  ⟨"map", 55, { cmInline := true }⟩,
  ⟨"menu", 56, { }⟩,
  ⟨"meta", 57, { cmInline := true, cmHead := true }⟩,
  ⟨"noframes", 58, { }⟩,
  ⟨"noscript", 59, { cmInline := true }⟩,
  ⟨"object", 60, { cmInline := true, cmHead := true }⟩,
  ⟨"ol", 61, { flBlock := true }⟩,
  ⟨"optgroup", 62, { }⟩,
  ⟨"option", 63, { }⟩
]

/-- Chunk 3 of the static tag table (see `tag_defs`). -/
def tag_defs_3 : List html_tag_def := [
  ⟨"p", 64, { flBlock := true }⟩,
  ⟨"param", 65, { cmInline := true }⟩,
  ⟨"plaintext", 66, { }⟩,
  ⟨"pre", 67, { }⟩,
  ⟨"q", 68, { cmInline := true }⟩,
  ⟨"rb", 69, { cmInline := true }⟩,
  ⟨"rbc", 70, { cmInline := true }⟩,
  ⟨"rp", 71, { cmInline := true }⟩,
  ⟨"rt", 72, { cmInline := true }⟩,
  ⟨"rtc", 73, { cmInline := true }⟩,
  ⟨"ruby", 74, { cmInline := true }⟩,
  ⟨"s", 75, { cmInline := true }⟩,
  ⟨"samp", 76, { cmInline := true }⟩,
  ⟨"script", 77, { cmHead := true }⟩,
  ⟨"select", 78, { cmInline := true }⟩,
  ⟨"small", 79, { cmInline := true }⟩,
  ⟨"span", 80, { flBlock := true }⟩,
  ⟨"strike", 81, { cmInline := true }⟩,
  ⟨"strong", 82, { cmInline := true }⟩,
  ⟨"style", 83, { cmHead := true }⟩,
  ⟨"sub", 84, { cmInline := true }⟩,
  ⟨"sup", 85, { cmInline := true }⟩,
  ⟨"table", 86, { flBlock := true }⟩,
  ⟨"tbody", 87, { flBlock := true }⟩,
  ⟨"td", 88, { flBlock := true }⟩,
  ⟨"textarea", 89, { cmInline := true }⟩,
  ⟨"tfoot", 90, { }⟩,
  ⟨"th", 91, { flBlock := true }⟩,
  ⟨"thead", 92, { }⟩,
  ⟨"title", 93, { cmHead := true, cmUnique := true }⟩,
  ⟨"tr", 94, { flBlock := true }⟩,
  ⟨"tt", 95, { cmInline := true }⟩
]

/-- Chunk 4 of the static tag table (see `tag_defs`). -/
def tag_defs_4 : List html_tag_def := [
  ⟨"u", 96, { cmInline := true }⟩,
  ⟨"ul", 97, { flBlock := true }⟩,
  ⟨"var", 98, { cmInline := true }⟩,
  ⟨"xmp", 99, { }⟩,
  ⟨"nextid", 100, { cmHead := true }⟩,
  ⟨"align", 101, { }⟩,
  ⟨"bgsound", 102, { cmHead := true }⟩,
  ⟨"blink", 103, { cmInline := true }⟩,
  ⟨"comment", 104, { cmInline := true }⟩,
  ⟨"embed", 105, { cmInline := true }⟩,
  ⟨"ilayer", 106, { cmInline := true }⟩,
  ⟨"keygen", 107, { cmInline := true }⟩,
  ⟨"layer", 108, { }⟩,
  ⟨"marquee", 109, { cmInline := true }⟩,
  ⟨"multicol", 110, { }⟩,
  ⟨"nobr", 111, { cmInline := true }⟩,
  ⟨"noembed", 112, { cmInline := true }⟩,
  ⟨"nolayer", 113, { cmInline := true }⟩,
  ⟨"nosave", 114, { }⟩,
  ⟨"server", 115, { cmInline := true, cmHead := true }⟩,
  ⟨"servlet", 116, { cmInline := true }⟩,
  ⟨"spacer", 117, { cmInline := true }⟩,
  ⟨"wbr", 118, { cmInline := true }⟩
]

/-- The static tag-definition table `tag_defs` of html.c, in declaration
order. Ids are modelled from the spec: the enum `html_tags.h` is not part of
the reviewed sources, so ids are taken as distinct, monotonically increasing
values in declaration order (`N_TAGS` = the table length); content-model bits
not consulted by any embedded function (CM_BLOCK, CM_EMPTY, CM_OPT, ...) are
not carried. -/
def tag_defs : List html_tag_def :=
  tag_defs_1 ++ tag_defs_2 ++ tag_defs_3 ++ tag_defs_4

/-- `N_TAGS`: the number of entries of the tag enum. -/
def N_TAGS : Nat := 119

/-- `rspamd_html_tag_by_name` (html.c lines 599-616): `bsearch` with the
`tag_find` comparator (equal length, then case-insensitive compare) over the
table `qsort`-ed by the compatible `tag_cmp` order, which succeeds exactly
when some entry compares equal to the key; modelled as a search under that
equality. Returns the id, or -1 when the name is absent. -/
def rspamd_html_tag_by_name (nm : String) : Int :=
  match tag_defs.find? (fun d => ascii_caseq d.name.toList nm.toList) with
  | some d => Int.ofNat d.id
  | none => -1

/-- `rspamd_html_tag_by_id` (html.c lines 635-651): `bsearch` by id over the
id-sorted view `tag_defs_num`; ids are distinct, so this is the search for
the entry with that id. Returns the name, or NULL (`none`) when absent. -/
def rspamd_html_tag_by_id (id : Int) : Option String :=
  (tag_defs.find? (fun d => (d.id : Int) = id)).map (fun d => d.name)



/-- One completed tag record as it reaches the `tag_end` state of
`rspamd_html_process_part_full`: resolved id (-1 for unknown) and flags. -/
structure InputTag where
  id : Int
  flags : TagFlags
  contentLength : Nat := 0
deriving DecidableEq, Repr

/-- The tag record produced for an opening tag `<name>`: flags come from the
table entry (`tag->flags = found->flags`). -/
def openTag (d : html_tag_def) : InputTag :=
  ⟨Int.ofNat d.id, d.flags, 0⟩

/-- The tag record produced for a closing tag `</name>`: table flags plus
`FL_CLOSING` (html.c line 2520). -/
def closeTag (d : html_tag_def) : InputTag :=
  ⟨Int.ofNat d.id, { d.flags with flClosing := true }, 0⟩

/-- The per-document uniqueness state: the `tags_seen` bitset (as the list of
recorded ids, membership playing the role of the bit) and the
duplicate-elements flag. -/
structure SeenState where
  tagsSeen : List Int := []
  dupFlag : Bool := false
deriving DecidableEq, Repr

/-- The uniqueness bookkeeping run for one completed tag (html.c lines
2552-2560): for every tag with a valid id, a `CM_UNIQUE` definition whose bit
is already set raises the duplicate-elements flag, and the bit is then set --
closing and self-closed tags included, since the check is not guarded by
`FL_CLOSING`. -/
def rspamd_html_check_dup_step (st : SeenState) (tag : InputTag) : SeenState :=
  if tag.id ≠ -1 ∧ tag.id < (N_TAGS : Int) then
    { tagsSeen := tag.id :: st.tagsSeen,
      dupFlag := st.dupFlag || (tag.flags.cmUnique && decide (tag.id ∈ st.tagsSeen)) }
  else st

/-- The uniqueness bookkeeping over the stream of completed tags of a
document (the byte-level parser abstracted to the tag records it emits). -/
def rspamd_html_check_dups (tags : List InputTag) : SeenState :=
  tags.foldl rspamd_html_check_dup_step { }

/-!
Color handling: `rspamd_html_process_color` (html.c:1807-1941), the named-color
table initialisation (html.c:550-566), the default background color
(html.c:2251-2256) and the fallback font color (html.c:2123-2127). The union
layout of `struct html_color` follows the code's own assembly
`d.val = b + (g << 8) + (r << 16)` together with the component accessors: the
alpha component is the top byte of the 32-bit word. The named color table
itself lives in `html_colors.h`, so it is a parameter here; the initialisation
loop in the source stores every named color with `d.comp.alpha = 255`, which
the table-entry assembly below reproduces.
-/

/-- `struct html_color`: a 32-bit value with a validity flag. -/
structure html_color where
  val : Nat := 0
  valid : Bool := false
deriving DecidableEq

/-- Alpha component of a stored color value: the top byte of the 32-bit word. -/
def alphaOf (v : Nat) : Nat := v / 2 ^ 24 % 256

/-- Component assembly of a color word. -/
def compVal (alpha r g b : Nat) : Nat := b + g * 2 ^ 8 + r * 2 ^ 16 + alpha * 2 ^ 24

/-- The 22 bytes `strtoul` accepts as hexadecimal digits. -/
def hexChars : List Char := "0123456789abcdefABCDEF".toList

/-- Modelled from the spec: `rspamd_strtoul` parses a length-bounded span as an
unsigned decimal number, failing on any non-digit byte or on overflow. -/
def rspamd_strtoul_model (s : List Char) : Option Nat :=
  if s ≠ [] ∧ s.all (fun c => g_ascii_isdigit c) then
    let v := s.foldl (fun acc c => acc * 10 + (c.toNat - '0'.toNat)) 0
    if v ≤ ulongMax then some v else none
  else none

inductive RgbState where
  | obrace | num1 | num2 | num3 | skipSpaces
deriving DecidableEq

def rgbLoop (line : List Char) :
    Nat → Nat → Nat → RgbState → RgbState → Nat → Nat → Nat → Nat × Nat × Nat × Bool
  | 0, _, _, _, _, r, g, b => (r, g, b, false)
  | fuel + 1, p, c, state, next, r, g, b =>
    if p < line.length then
      let ch := line.getD p ' '
      match state with
      | RgbState.obrace =>
        if ch = '(' then rgbLoop line fuel (p + 1) c RgbState.skipSpaces RgbState.num1 r g b
        else if g_ascii_isspace ch then rgbLoop line fuel p c RgbState.skipSpaces RgbState.obrace r g b
        else (r, g, b, false)
      | RgbState.num1 =>
        if ch = ',' then
          match rspamd_strtoul_model (slice line c p) with
          | some v => rgbLoop line fuel (p + 1) c RgbState.skipSpaces RgbState.num2 v g b
          | none => (r, g, b, false)
        else if ¬ g_ascii_isdigit ch then (r, g, b, false)
        else rgbLoop line fuel (p + 1) c state next r g b
      | RgbState.num2 =>
        if ch = ',' then
          match rspamd_strtoul_model (slice line c p) with
          | some v => rgbLoop line fuel (p + 1) c RgbState.skipSpaces RgbState.num3 r v b
          | none => (r, g, b, false)
        else if ¬ g_ascii_isdigit ch then (r, g, b, false)
        else rgbLoop line fuel (p + 1) c state next r g b
      | RgbState.num3 =>
        if ch = ',' then
          match rspamd_strtoul_model (slice line c p) with
          | some v => (r, g, v, true)
          | none => (r, g, b, false)
        else if ¬ g_ascii_isdigit ch then (r, g, b, false)
        else rgbLoop line fuel (p + 1) c state next r g b
      | RgbState.skipSpaces =>
        if ¬ g_ascii_isspace ch then rgbLoop line fuel p p next next r g b
        else rgbLoop line fuel (p + 1) c state next r g b
    else (r, g, b, false)

def rgbBranchResult (line : List Char) : Nat × Nat × Nat × Bool :=
  let p0 : Nat := if line.getD 3 ' ' = 'a' then 4 else 3
  rgbLoop line (2 * line.length + 2) p0 p0 RgbState.skipSpaces RgbState.obrace 0 0 0

def rspamd_html_process_color (colorTable : List (String × Nat × Nat × Nat))
    (line : List Char) : html_color :=
  if line.getD 0 ' ' = '#' then
    { val := (strtoulModel (((line.drop 1).take (min 6 (line.length - 1))).takeWhile
        (fun c => c ≠ Char.ofNat 0)) 16).1 % 2 ^ 32,
      valid := true }
  else if line.length > 4 ∧ ascii_caseq (line.take 3) ['r', 'g', 'b'] then
    match rgbBranchResult line with
    | (r, g, b, true) => { val := (b + g * 2 ^ 8 + r * 2 ^ 16) % 2 ^ 32, valid := true }
    | (_, _, _, false) => { }
  else
    match colorTable.find? (fun e => ascii_caseq e.1.toList line) with
    | some e => { val := compVal 255 e.2.1 e.2.2.1 e.2.2.2, valid := true }
    | none => { }

def html_default_bgcolor : html_color :=
  { val := compVal 0 255 255 255, valid := true }

def html_fallback_font_color : html_color :=
  { val := compVal 255 0 0 0, valid := true }

/-!
URL extraction from href/src attributes: `rspamd_html_process_url`
(html.c:1475-1605). The URL parser itself (`rspamd_url_parse`) and the unicode
normalisation pass are external to the reviewed sources and enter as an
oracle.
-/

/-- Whitespace trimming at both ends of the attribute span (html.c:1491-1514). -/
def trimSpaces (l : List Char) : List Char :=
  ((l.dropWhile (fun c => g_ascii_isspace c)).reverse.dropWhile
    (fun c => g_ascii_isspace c)).reverse

def hexdigests : List Char := "0123456789abcdef".toList

/-- Copy loop of `rspamd_html_process_url` (html.c:1549-1564): internal CR/LF
bytes are dropped, ASCII non-graphic bytes are percent-encoded with lowercase
hex digits, everything else is copied. -/
def urlEncodeScan (t : List Char) : List Char :=
  t.flatMap (fun c =>
    if c = '\r' ∨ c = '\n' then []
    else if c.toNat < 0x80 ∧ ¬ g_ascii_isgraph c then
      ['%', hexdigests.getD (c.toNat / 16 % 16) '0', hexdigests.getD (c.toNat % 16) '0']
    else [c])

/-- The string handed to the URL parser (html.c:1528-1566): the trimmed span,
scheme-prefixed when it contains no `:` byte, with the copy-loop rewriting
applied. -/
def buildUrlString (input : List Char) : List Char :=
  let t := trimSpaces input
  if ':' ∈ t then urlEncodeScan t
  else (if t.getD 0 ' ' = '/' ∧ (t.length > 2 ∧ t.getD 1 ' ' = '/') then
      ("http:".toList) else ("http://".toList)) ++ urlEncodeScan t

/-- The spec's description of the same step: prefix `http:` whenever the span
already starts with `//`, otherwise `http://`. -/
def specSchemelessBuild (t : List Char) : List Char :=
  if ':' ∈ t then urlEncodeScan t
  else (if t.take 2 = ['/', '/'] then ("http:".toList) else ("http://".toList)) ++
    urlEncodeScan t

/-- Outcome of `rspamd_html_process_url` visible to C9, with URL parsing (and
unicode normalisation, treated as the identity) as an oracle: on parse success
the parser input string is returned together with the schemeless flag. -/
def rspamd_html_process_url_model (urlParse : List Char → Bool) (input : List Char) :
    Option (List Char × Bool) :=
  let d := buildUrlString input
  if urlParse d then some (d, decide (':' ∉ trimSpaces input)) else none

/-!
Phishing detection for anchor tags: `rspamd_url_is_subdomain` (html.c:765-812)
and `rspamd_html_url_is_phished` (html.c:814-986). URL search, URL parsing and
IDN decoding are external to the reviewed sources and enter as oracles.
-/

/-- Trailing-dot skipping loop of `rspamd_url_is_subdomain`: moves the index
left while it reads a dot, never moving past index 0. -/
def skipDots (t : List Char) : Nat → Nat
  | 0 => 0
  | i + 1 => if t.getD (i + 1) ' ' ≠ '.' then i + 1 else skipDots t i

/-- Backwards comparison loop of `rspamd_url_is_subdomain`: both indices move
left while both are positive and the bytes agree; stops at the first mismatch
or when either index reaches 0 (the byte at index 0 is never compared). -/
def cmpLoop (t1 t2 : List Char) : Nat → Nat → Nat × Nat
  | 0, i2 => (0, i2)
  | i1 + 1, 0 => (i1 + 1, 0)
  | i1 + 1, i2 + 1 =>
    if t1.getD (i1 + 1) ' ' = t2.getD (i2 + 1) ' ' then cmpLoop t1 t2 i1 i2
    else (i1 + 1, i2 + 1)

/-- `rspamd_url_is_subdomain` (html.c:765-812) on two nonempty byte spans. -/
def rspamd_url_is_subdomain (t1 t2 : List Char) : Bool :=
  let i1 := skipDots t1 (t1.length - 1)
  let i2 := skipDots t2 (t2.length - 1)
  let r := cmpLoop t1 t2 i1 i2
  if r.2 = 0 then decide (r.1 ≠ 0) && decide (t1.getD (r.1 - 1) ' ' = '.')
  else if r.1 = 0 then decide (r.2 ≠ 0) && decide (t2.getD (r.2 - 1) ' ' = '.')
  else false

/-- The spec's notion: `sub` is a proper dot-bounded suffix of `sup`, compared
case-insensitively. -/
def specDotBoundedSuffix (sub sup : List Char) : Bool :=
  decide (sub.length + 1 ≤ sup.length) &&
  ascii_caseq (sup.drop (sup.length - sub.length)) sub &&
  decide (sup.getD (sup.length - sub.length - 1) ' ' = '.')

/-- Case-insensitive search for `xn--` (`rspamd_substring_search_caseless`). -/
def hasXn (hay : List Char) : Bool :=
  (List.range (hay.length + 1)).any (fun i =>
    decide (i + 4 ≤ hay.length) && ascii_caseq ((hay.drop i).take 4) ("xn--".toList))

/-- Host and TLD spans of a parsed URL. -/
structure UrlParts where
  host : List Char
  tld : List Char
deriving DecidableEq

/-- One guarded IDN conversion. The ICU error code is never reset between the
calls in `rspamd_html_url_is_phished`, so a failed conversion poisons every
later call in the same invocation; the `err` flag threads that state: a
poisoned or failing conversion leaves the token unchanged. -/
def idnConv (idn : List Char → Option (List Char)) (err : Bool) (apply : Bool)
    (tok : List Char) : List Char × Bool :=
  if apply then
    if err then (tok, true)
    else match idn tok with
      | some u => (u, false)
      | none => (tok, true)
  else (tok, err)

/-- Observable outcome of `rspamd_html_url_is_phished`. -/
structure PhishedOut where
  urlFound : Bool
  textUrl : Option UrlParts
  hrefPhished : Bool
  phishedTldTag : Option (List Char)
  htmlDisplayed : Bool
deriving DecidableEq

/-- `rspamd_html_url_is_phished` (html.c:814-986) with URL search, URL parsing
and IDN decoding as oracles. `urlFind` returns the found URL string and its
offset in the text; `urlParse` returns the host/TLD spans; `idn` is the
`uidna_nameToUnicodeUTF8` conversion, `none` meaning failure. -/
def rspamd_html_url_is_phished (urlFind : List Char → Option (List Char × Nat))
    (urlParse : List Char → Option UrlParts) (idn : List Char → Option (List Char))
    (href : UrlParts) (url_text : List Char) : PhishedOut :=
  let tText := url_text.dropWhile (fun c => g_ascii_isspace c)
  let notF : PhishedOut :=
    { urlFound := false, textUrl := none, hrefPhished := false,
      phishedTldTag := none, htmlDisplayed := false }
  if 4 < tText.length then
    match urlFind tText with
    | some (url_str, url_pos) =>
      if 0 < url_pos ∧ ¬ ((tText.take url_pos).all (fun c => g_ascii_isspace c)) then
        notF
      else
        match urlParse url_str with
        | some textU =>
          let dh := idnConv idn false (hasXn textU.host) textU.host
          let hh := idnConv idn dh.2 (hasXn href.host) href.host
          if ascii_caseq dh.1 hh.1 = false then
            let dt := idnConv idn hh.2 (hasXn textU.tld) textU.tld
            let ht := idnConv idn dt.2 (hasXn href.tld) href.tld
            if ascii_caseq dt.1 ht.1 = false then
              if rspamd_url_is_subdomain dt.1 ht.1 = false then
                { urlFound := true, textUrl := some textU, hrefPhished := true,
                  phishedTldTag := some ht.1, htmlDisplayed := true }
              else
                { urlFound := true, textUrl := some textU, hrefPhished := false,
                  phishedTldTag := none, htmlDisplayed := false }
            else
              { urlFound := true, textUrl := some textU, hrefPhished := false,
                phishedTldTag := none, htmlDisplayed := false }
          else
            { urlFound := true, textUrl := some textU, hrefPhished := false,
              phishedTldTag := none, htmlDisplayed := false }
        | none => notF
    | none => notF
  else notF

/-!
The tag-tree builder: `rspamd_html_process_tag` (html.c:988-1102) and
`rspamd_html_check_balance` (html.c:569-597), over an arena model of the
`GNode` tree.
-/

/-- A materialized `struct html_tag` in the arena: id, flags, accumulated
content length and the `parent` GNode pointer (as a node index). -/
structure HtmlTag where
  id : Int
  flags : TagFlags
  contentLength : Nat
  parentNode : Option Nat
deriving DecidableEq, Repr

/-- A `GNode` of the tag tree: the `data` pointer (a tag index, `none` for the
root) and the parent node. Nodes are only ever appended; the node destroyed by
`rspamd_html_check_balance` is simply never referenced again (the current
level moves strictly above it). -/
structure GNodeRec where
  data : Option Nat
  parent : Option Nat
deriving DecidableEq, Repr

def dummyNode : GNodeRec := ⟨none, none⟩
def dummyTag : HtmlTag := ⟨-1, {}, 0, none⟩

/-- Parser state touched by `rspamd_html_process_tag`. -/
structure PTState where
  tags : List HtmlTag := []
  nodes : List GNodeRec := []
  curLevel : Option Nat := none
  totalTags : Nat := 0
  tooManyTags : Bool := false
  unbalanced : Bool := false
deriving DecidableEq, Repr

def max_tags : Nat := 8192

def setTagClosed (tags : List HtmlTag) (i : Nat) : List HtmlTag :=
  let t := tags.getD i dummyTag
  tags.set i { t with flags := { t.flags with flClosed := true } }

def setTagIgnored (tags : List HtmlTag) (i : Nat) : List HtmlTag :=
  let t := tags.getD i dummyTag
  tags.set i { t with flags := { t.flags with flIgnore := true } }

def addContentLength (tags : List HtmlTag) (i : Nat) (n : Nat) : List HtmlTag :=
  let t := tags.getD i dummyTag
  tags.set i { t with contentLength := t.contentLength + n }

/-- The ancestor walk of `rspamd_html_check_balance` (html.c:569-597): from a
starting node upwards while the node exists and carries data, looking for an
unclosed tag with the given id; returns the tag index found and the parent of
the node carrying it. The ancestor chain is strictly decreasing in node index,
so the node count is enough fuel. -/
def balanceWalk (tags : List HtmlTag) (nodes : List GNodeRec) (argId : Int) :
    Nat → Option Nat → Option (Nat × Option Nat)
  | 0, _ => none
  | fuel + 1, curOpt =>
    match curOpt with
    | none => none
    | some cur =>
      match (nodes.getD cur dummyNode).data with
      | none => none
      | some tidx =>
        if (tags.getD tidx dummyTag).id = argId ∧
            (tags.getD tidx dummyTag).flags.flClosed = false then
          some (tidx, (nodes.getD cur dummyNode).parent)
        else balanceWalk tags nodes argId fuel ((nodes.getD cur dummyNode).parent)

/-- The guarded node creation shared by the non-closing block paths
(html.c:1071-1095): when the tag cap is not reached, a node carrying the tag
is appended to the current level, the level descends unless the tag is
self-closed, and the counter advances; the `CM_HEAD|CM_UNKNOWN|FL_IGNORE`
check afterwards marks the (created) tag ignored. -/
def commonCreate (st : PTState) (cl : Nat) (tag : InputTag) (tflags : TagFlags) :
    PTState :=
  if st.totalTags < max_tags then
    let tidx := st.tags.length
    let nidx := st.nodes.length
    let created : PTState := { st with
      tags := st.tags ++ [⟨tag.id, tflags, tag.contentLength, some cl⟩]
      nodes := st.nodes ++ [⟨some tidx, some cl⟩]
      curLevel := if tflags.flClosed then st.curLevel else some nidx
      totalTags := st.totalTags + 1 }
    if tflags.cmHead || tflags.cmUnknown || tflags.flIgnore then
      { created with tags := setTagIgnored created.tags tidx }
    else created
  else st

/-- Root creation on first use (html.c:995-1002). -/
def rootInit (st : PTState) : PTState :=
  if st.nodes.isEmpty then
    { st with nodes := [⟨none, none⟩], curLevel := some 0 }
  else st

/-- The tag-cap flag check (html.c:1004-1006): performed before any increment,
so the flag requires the counter to be strictly above the cap on entry. -/
def flagCap (st : PTState) : PTState :=
  if st.totalTags > max_tags then { st with tooManyTags := true } else st

/-- Outcome application for the closing path: on a found match the arena tag
is marked closed and the level moves to the parent of the node that carried
it; on a failed walk the document is flagged unbalanced. -/
def closingApply (st : PTState) (tags1 : List HtmlTag) (nodes1 : List GNodeRec) :
    Option (Nat × Option Nat) → PTState
  | some r =>
    { st with
      tags := setTagClosed tags1 r.1
      nodes := nodes1
      curLevel := r.2
      totalTags := st.totalTags + 1 }
  | none =>
    { st with
      tags := tags1
      nodes := nodes1
      unbalanced := true
      totalTags := st.totalTags + 1 }

/-- The `FL_CLOSING|FL_CLOSED` block path (html.c:1018-1044): guarded node
creation followed by the balance repair walk for closing tags. -/
def closingPath (st : PTState) (cl : Nat) (tag : InputTag) : PTState :=
  if st.totalTags < max_tags then
    let tidx := st.tags.length
    let tags1 := st.tags ++ [⟨tag.id, tag.flags, tag.contentLength, some cl⟩]
    let nodes1 := st.nodes ++ [⟨some tidx, some cl⟩]
    if tag.flags.flClosing then
      closingApply st tags1 nodes1 (balanceWalk tags1 nodes1 tag.id nodes1.length (some cl))
    else
      { st with
        tags := tags1
        nodes := nodes1
        totalTags := st.totalTags + 1 }
  else st

/-- The non-closing block path (html.c:1045-1095): ignore propagation, the
bad-nesting repair, the parent content-length update and the guarded node
creation with the head/unknown/ignore marking. -/
def openPath (st : PTState) (cl : Nat) (tag : InputTag) : PTState :=
  match (st.nodes.getD cl dummyNode).data with
  | some pidx =>
    let ptag := st.tags.getD pidx dummyTag
    let tflags1 := if ptag.flags.flIgnore then
        { tag.flags with flIgnore := true } else tag.flags
    if tflags1.flClosed = false ∧ ptag.flags.flBlock = false ∧
        ptag.id = tag.id then
      let st2 : PTState := { st with unbalanced := true }
      if st2.totalTags < max_tags then
        let tidx := st2.tags.length
        let nidx := st2.nodes.length
        { st2 with
          tags := st2.tags ++ [⟨tag.id, tflags1, tag.contentLength, ptag.parentNode⟩]
          nodes := st2.nodes ++ [⟨some tidx, ptag.parentNode⟩]
          curLevel := some nidx
          totalTags := st2.totalTags + 1 }
      else st2
    else
      commonCreate { st with
        tags := addContentLength st.tags pidx tag.contentLength } cl tag tflags1
  | none => commonCreate st cl tag tag.flags

/-- `rspamd_html_process_tag` (html.c:988-1102) as a state transformer on the
arena model. The boolean return value (text emission) is not modelled; the
`none` case of the current level is unreachable once the root exists. -/
def rspamd_html_process_tag (st0 : PTState) (tag : InputTag) : PTState :=
  let st := flagCap (rootInit st0)
  if tag.id = -1 then { st with totalTags := st.totalTags + 1 }
  else
    match st.curLevel with
    | none => st
    | some cl =>
      if tag.flags.cmInline = false then
        if tag.flags.flClosing || tag.flags.flClosed then closingPath st cl tag
        else openPath st cl tag
      else st

/-- The stream of completed tags of a document, driven through
`rspamd_html_process_tag` from the empty document state. -/
def rspamd_html_process_tags (l : List InputTag) : PTState :=
  l.foldl rspamd_html_process_tag {}

-- C4 lemmas

/-- Well-formed, fully nested tag sequences: inline tags and unknown-free
self-closed tags are transparent items; an element is an opening tag, a
well-formed inner sequence, and a matching closing tag. The ambient context
carries the id and `FL_BLOCK` bit of the enclosing element; the nesting side
condition excludes an element directly inside a same-id ambient element whose
definition lacks `FL_BLOCK` (the source's bad-nesting repair would fire
there). -/
inductive NestedSeq : Option (Int × Bool) → List InputTag → Prop where
  | nil (amb : Option (Int × Bool)) : NestedSeq amb []
  | inl (amb : Option (Int × Bool)) (t : InputTag) (rest : List InputTag) :
      t.flags.cmInline = true → t.id ≠ -1 →
      NestedSeq amb rest → NestedSeq amb (t :: rest)
  | selfc (amb : Option (Int × Bool)) (t : InputTag) (rest : List InputTag) :
      t.flags.cmInline = false → t.flags.flClosed = true →
      t.flags.flClosing = false → t.id ≠ -1 →
      NestedSeq amb rest → NestedSeq amb (t :: rest)
  | elem (amb : Option (Int × Bool)) (o c : InputTag) (inner rest : List InputTag) :
      o.flags.cmInline = false → o.flags.flClosing = false →
      o.flags.flClosed = false → o.id ≠ -1 →
      (∀ a : Int × Bool, amb = some a → a.1 = o.id → a.2 = true) →
      c.flags.cmInline = false → c.flags.flClosing = true → c.id = o.id →
      NestedSeq (some (o.id, o.flags.flBlock)) inner →
      NestedSeq amb rest →
      NestedSeq amb (o :: (inner ++ c :: rest))

/-- What the current level node must look like for an ambient context. -/
def ambObs (st : PTState) (cl : Nat) : Option (Int × Bool) → Prop
  | none => (st.nodes.getD cl dummyNode).data = none
  | some a => ∃ tidx, (st.nodes.getD cl dummyNode).data = some tidx ∧
      tidx < st.tags.length ∧
      (st.tags.getD tidx dummyTag).id = a.1 ∧
      (st.tags.getD tidx dummyTag).flags.flBlock = a.2

/-- Clean run summary: the fragment leaves the balance flags and the current
level untouched, only appends nodes, preserves the identity of pre-existing
tag records (content length aside), advances the counter by at most the
fragment length, and closes every materialized non-closing tag it creates. -/
def runsClean (st st2 : PTState) (n : Nat) : Prop :=
  st2.unbalanced = st.unbalanced ∧
  st2.tooManyTags = st.tooManyTags ∧
  st2.curLevel = st.curLevel ∧
  (∃ d, st2.nodes = st.nodes ++ d) ∧
  st.tags.length ≤ st2.tags.length ∧
  (∀ i, i < st.tags.length →
    (st2.tags.getD i dummyTag).id = (st.tags.getD i dummyTag).id ∧
    (st2.tags.getD i dummyTag).flags = (st.tags.getD i dummyTag).flags ∧
    (st2.tags.getD i dummyTag).parentNode = (st.tags.getD i dummyTag).parentNode) ∧
  st2.totalTags ≤ st.totalTags + n ∧
  (∀ i, st.tags.length ≤ i → i < st2.tags.length →
    (st2.tags.getD i dummyTag).flags.flClosing = true ∨
    (st2.tags.getD i dummyTag).flags.flClosed = true)

/-- The spec's notion of a well-formed, fully nested tag sequence without
stray closers: like `NestedSeq` but WITHOUT the bad-nesting side condition --
the spec promises balance for every such input. -/
inductive specNestedSeq : List InputTag → Prop where
  | nil : specNestedSeq []
  | inl (t : InputTag) (rest : List InputTag) :
      t.flags.cmInline = true → t.id ≠ -1 →
      specNestedSeq rest → specNestedSeq (t :: rest)
  | selfc (t : InputTag) (rest : List InputTag) :
      t.flags.cmInline = false → t.flags.flClosed = true →
      t.flags.flClosing = false → t.id ≠ -1 →
      specNestedSeq rest → specNestedSeq (t :: rest)
  | elem (o c : InputTag) (inner rest : List InputTag) :
      o.flags.cmInline = false → o.flags.flClosing = false →
      o.flags.flClosed = false → o.id ≠ -1 →
      c.flags.cmInline = false → c.flags.flClosing = true → c.id = o.id →
      specNestedSeq inner → specNestedSeq rest →
      specNestedSeq (o :: (inner ++ c :: rest))

/-!
Theorems. Helper list lemmas come first, then the per-claim results.
-/

theorem getD_eq_headD_drop (l : List Char) (n : Nat) (d : Char) :
    l.getD n d = (l.drop n).headD d := by
  induction l generalizing n with
  | nil => simp
  | cons c rest ih =>
    cases n with
    | zero => simp
    | succ m => simpa using ih m

theorem set_append_len (A X : List Char) (c c' : Char) :
    (A ++ c :: X).set A.length c' = A ++ c' :: X := by
  induction A with
  | nil => simp
  | cons a A ih => simpa using ih

theorem writeAt_self (seg : List Char) : ∀ (A B : List Char),
    writeAt (A ++ (seg ++ B)) A.length seg = A ++ (seg ++ B) := by
  induction seg with
  | nil => intro A B; rfl
  | cons c rest ih =>
    intro A B
    show writeAt ((A ++ (c :: (rest ++ B))).set A.length c) (A.length + 1) rest
        = A ++ (c :: (rest ++ B))
    rw [set_append_len]
    have h2 : A ++ (c :: (rest ++ B)) = (A ++ [c]) ++ (rest ++ B) := by simp
    rw [h2]
    have h3 : A.length + 1 = (A ++ [c]).length := by simp
    rw [h3]
    exact ih (A ++ [c]) B

/-- Unfolds `cString` over an explicit buffer decomposition. -/
theorem cString_append (A body X : List Char)
    (hnul : Char.ofNat 0 ∉ body) :
    cString (A ++ (body ++ X)) A.length (A.length + body.length) = body := by
  unfold cString slice
  rw [show A.length + body.length - A.length = body.length from by omega]
  rw [List.drop_left, List.take_left]
  exact List.takeWhile_eq_self_iff.mpr (fun x hx => by
    simp only [decide_eq_true_eq]
    exact fun h0 => hnul (h0 ▸ hx))

/-- Take of an exact-length prefix through cons-append shapes. -/
theorem take_cons_append (c : Char) (body X : List Char) :
    (c :: (body ++ X)).take (body.length + 1) = c :: body := by
  simp [List.take_cons, List.take_left]

/-- Both pass-through branches of the token handler leave the buffer unchanged
and advance the write index to the position of the semicolon:
a matched named entity without replacement, and a numeric token whose digits
are followed by garbage, are copied over themselves (minus the `;`). -/
theorem decodeEntity_passthrough (g : Nat → Bool) (pre body post : List Char)
    (hnul : Char.ofNat 0 ∉ body)
    (hbranch :
      (body.headD ' ' ≠ '#' ∧ isNoReplacementName body) ∨
      (body.headD ' ' = '#' ∧ numericGarbage body)) :
    decodeEntity g (pre ++ ('&' :: (body ++ ';' :: post))) pre.length pre.length
        (pre.length + (body.length + 1))
      = (pre ++ ('&' :: (body ++ ';' :: post)), pre.length + (body.length + 1)) := by
  have hassoc1 :
      pre ++ ('&' :: (body ++ ';' :: post)) = (pre ++ ['&']) ++ (body ++ ';' :: post) := by
    simp
  have hlen1 : (pre ++ ['&']).length = pre.length + 1 := by simp
  have hnm : cString (pre ++ ('&' :: (body ++ ';' :: post))) (pre.length + 1)
      (pre.length + (body.length + 1)) = body := by
    have harith : pre.length + (body.length + 1) = (pre.length + 1) + body.length := by omega
    rw [harith, hassoc1]
    have h0 := cString_append (pre ++ ['&']) body (';' :: post) hnul
    rw [hlen1] at h0
    exact h0
  have hget1 : (pre ++ ('&' :: (body ++ ';' :: post))).getD (pre.length + 1) ' '
      = (body ++ ';' :: post).headD ' ' := by
    rw [getD_eq_headD_drop, hassoc1, ← hlen1, List.drop_left]
  have hslice_tok : slice (pre ++ ('&' :: (body ++ ';' :: post))) pre.length
      (pre.length + (body.length + 1)) = '&' :: body := by
    unfold slice
    rw [show pre.length + (body.length + 1) - pre.length = body.length + 1 from by omega]
    rw [List.drop_left]
    exact take_cons_append '&' body (';' :: post)
  have hwrite : writeAt (pre ++ ('&' :: (body ++ ';' :: post))) pre.length ('&' :: body)
      = pre ++ ('&' :: (body ++ ';' :: post)) := by
    have h0 := writeAt_self ('&' :: body) pre (';' :: post)
    simpa using h0
  have hseth : (pre ++ ('&' :: (body ++ ';' :: post))).set
      (pre.length + (body.length + 1)) ';'
      = pre ++ ('&' :: (body ++ ';' :: post)) := by
    have hassoc2 : pre ++ ('&' :: (body ++ ';' :: post))
        = (pre ++ '&' :: body) ++ ';' :: post := by simp
    have hlen2 : (pre ++ '&' :: body).length = pre.length + (body.length + 1) := by
      simp
    rw [hassoc2, ← hlen2]
    exact set_append_len (pre ++ '&' :: body) post ';' ';'
  have harithe : pre.length + (pre.length + (body.length + 1) - pre.length)
      = pre.length + (body.length + 1) := by omega
  rcases hbranch with ⟨hnh, hrep⟩ | ⟨hh, hng⟩
  · -- named entity with no replacement
    have hfe0 : (findEntityByName body).isSome := by
      unfold isNoReplacementName at hrep
      cases hfe : findEntityByName body with
      | none => rw [hfe] at hrep; simp at hrep
      | some en => simp
    obtain ⟨en, hfe⟩ := Option.isSome_iff_exists.mp hfe0
    have hrepn : en.replacement = none := by
      unfold isNoReplacementName at hrep
      rw [hfe] at hrep
      simpa [Option.isNone_iff_eq_none] using hrep
    obtain ⟨c, bs, rfl⟩ : ∃ c bs, body = c :: bs := by
      cases body with
      | nil =>
        exfalso
        rw [show findEntityByName [] = none from by decide] at hfe
        cases hfe
      | cons c bs => exact ⟨c, bs, rfl⟩
    have hcne : c ≠ '#' := by simpa using hnh
    have hget1' : (pre ++ ('&' :: (c :: bs ++ ';' :: post))).getD (pre.length + 1) ' '
        = c := by rw [hget1]; rfl
    simp only [decodeEntity]
    rw [hnm, hget1', hfe]
    rw [if_pos ⟨hcne, rfl⟩]
    simp only [hrepn]
    rw [hslice_tok, hwrite, hseth, harithe]
  · -- numeric token with trailing garbage
    obtain ⟨b1, bs, rfl⟩ : ∃ b1 bs, body = '#' :: b1 :: bs := by
      unfold numericGarbage at hng
      cases body with
      | nil => simp at hng
      | cons c0 rest =>
        cases rest with
        | nil => simp at hng
        | cons b1 bs =>
          have hc0 : c0 = '#' := by simpa using hh
          subst hc0
          exact ⟨b1, bs, rfl⟩
    have hget1' : (pre ++ ('&' :: ('#' :: b1 :: bs ++ ';' :: post))).getD
        (pre.length + 1) ' ' = '#' := by rw [hget1]; rfl
    have hget2 : (pre ++ ('&' :: ('#' :: b1 :: bs ++ ';' :: post))).getD
        (pre.length + 2) ' ' = b1 := by
      rw [getD_eq_headD_drop]
      have hassoc3 : pre ++ ('&' :: ('#' :: b1 :: bs ++ ';' :: post))
          = (pre ++ ['&', '#']) ++ (b1 :: (bs ++ ';' :: post)) := by simp
      have hlen3 : (pre ++ ['&', '#']).length = pre.length + 2 := by simp
      rw [hassoc3, ← hlen3, List.drop_left]
      rfl
    have hlt : pre.length + 2 < pre.length + (('#' :: b1 :: bs).length + 1) := by
      simp
    have hdig10 : cString (pre ++ ('&' :: ('#' :: b1 :: bs ++ ';' :: post)))
        (pre.length + 2) (pre.length + (('#' :: b1 :: bs).length + 1)) = b1 :: bs := by
      have harith : pre.length + (('#' :: b1 :: bs).length + 1)
          = (pre.length + 2) + (b1 :: bs).length := by simp; omega
      rw [harith]
      have hassoc3 : pre ++ ('&' :: ('#' :: b1 :: bs ++ ';' :: post))
          = (pre ++ ['&', '#']) ++ ((b1 :: bs) ++ ';' :: post) := by simp
      have hlen3 : (pre ++ ['&', '#']).length = pre.length + 2 := by simp
      rw [hassoc3, ← hlen3]
      exact cString_append (pre ++ ['&', '#']) (b1 :: bs) (';' :: post)
        (fun hm => hnul (List.mem_cons_of_mem '#' hm))
    have hdig8 : cString (pre ++ ('&' :: ('#' :: b1 :: bs ++ ';' :: post)))
        (pre.length + 3) (pre.length + (('#' :: b1 :: bs).length + 1)) = bs := by
      have harith : pre.length + (('#' :: b1 :: bs).length + 1)
          = (pre.length + 3) + bs.length := by simp; omega
      rw [harith]
      have hassoc4 : pre ++ ('&' :: ('#' :: b1 :: bs ++ ';' :: post))
          = (pre ++ ['&', '#', b1]) ++ (bs ++ ';' :: post) := by simp
      have hlen4 : (pre ++ ['&', '#', b1]).length = pre.length + 3 := by simp
      rw [hassoc4, ← hlen4]
      exact cString_append (pre ++ ['&', '#', b1]) bs (';' :: post)
        (fun hm => hnul (List.mem_cons_of_mem '#' (List.mem_cons_of_mem b1 hm)))
    have hfe_guard : ¬ ((pre ++ ('&' :: ('#' :: b1 :: bs ++ ';' :: post))).getD
        (pre.length + 1) ' ' ≠ '#' ∧
        (findEntityByName (cString (pre ++ ('&' :: ('#' :: b1 :: bs ++ ';' :: post)))
          (pre.length + 1) (pre.length + (('#' :: b1 :: bs).length + 1)))).isSome) := by
      rw [hget1']
      intro hcon
      exact hcon.1 rfl
    unfold numericGarbage at hng
    rw [if_pos (by simp : 2 ≤ ('#' :: b1 :: bs).length)] at hng
    simp only [List.getD_cons_succ, List.getD_cons_zero, List.drop_succ_cons,
      List.drop_zero, decide_eq_true_eq] at hng
    simp only [decodeEntity]
    rw [if_neg hfe_guard, if_pos hlt, hget2]
    by_cases h16 : b1 = 'x' ∨ b1 = 'X'
    · simp only [h16, if_true] at hng ⊢
      norm_num only at hng ⊢
      simp only [ite_true, ite_false] at hng ⊢
      rw [hdig8]
      rw [if_pos (by simpa using hng)]
      rw [hslice_tok, hwrite, hseth, harithe]
    · by_cases h8 : b1 = 'o' ∨ b1 = 'O'
      · simp only [h16, h8, if_false, if_true] at hng ⊢
        norm_num only at hng ⊢
        simp only [ite_true, ite_false] at hng ⊢
        rw [hdig8]
        rw [if_pos (by simpa using hng)]
        rw [hslice_tok, hwrite, hseth, harithe]
      · simp only [h16, h8, if_false] at hng ⊢
        norm_num only at hng ⊢
        simp only [ite_true, ite_false] at hng ⊢
        rw [hdig10]
        rw [if_pos (by simpa using hng)]
        rw [hslice_tok, hwrite, hseth, harithe]

theorem drop_set_of_lt (l : List Char) : ∀ (i n : Nat) (c : Char), i < n →
    (l.set i c).drop n = l.drop n := by
  induction l with
  | nil => intro i n c h; simp
  | cons a l ih =>
    intro i n c h
    cases i with
    | zero =>
      cases n with
      | zero => omega
      | succ m => simp
    | succ j =>
      cases n with
      | zero => omega
      | succ m => simpa using ih j m c (by omega)

theorem take_set_succ (A : List Char) : ∀ (t : Nat) (c : Char), t < A.length →
    (A.set t c).take (t + 1) = A.take t ++ [c] := by
  induction A with
  | nil => intro t c h; simp at h
  | cons a A ih =>
    intro t c h
    cases t with
    | zero => simp
    | succ n =>
      have hn : n < A.length := by simpa using h
      simpa using ih n c hn

/-- Fuel is irrelevant as long as it covers the remaining `l - h` steps. -/
theorem decodeLoop_fuel_congr (g : Nat → Bool) :
    ∀ (f1 f2 : Nat) (buf : List Char) (l t h : Nat) (st : Option Nat),
    l - h ≤ f1 → l - h ≤ f2 →
    decodeLoop g f1 buf l t h st = decodeLoop g f2 buf l t h st := by
  intro f1
  induction f1 with
  | zero =>
    intro f2 buf l t h st h1 h2
    have hl : ¬ h < l := by omega
    cases f2 with
    | zero => rfl
    | succ f2 => simp [decodeLoop, hl]
  | succ f1 ih =>
    intro f2 buf l t h st h1 h2
    by_cases hl : h < l
    · cases f2 with
      | zero => omega
      | succ f2 =>
        simp only [decodeLoop, hl, if_true]
        cases st with
        | none =>
          by_cases hc : buf.getD h ' ' = '&'
          · simp only [hc, if_true]
            exact ih f2 buf l t (h + 1) (some h) (by omega) (by omega)
          · simp only [hc, if_false]
            exact ih f2 (buf.set t (buf.getD h ' ')) l (t + 1) (h + 1) none
              (by omega) (by omega)
        | some e =>
          by_cases hc : buf.getD h ' ' = ';' ∧ h > e
          · simp only [hc, if_true]
            exact ih f2 (decodeEntity g buf t e h).1 l (decodeEntity g buf t e h).2
              (h + 1) none (by omega) (by omega)
          · simp only [hc, if_false]
            exact ih f2 buf l t (h + 1) (some e) (by omega) (by omega)
    · cases f2 with
      | zero => simp [decodeLoop, hl]
      | succ f2 => simp [decodeLoop, hl]

/-- State-0 run over a segment containing no ampersand, with write index equal
to read index: every write re-writes the byte just read, so the buffer is
unchanged and both indices advance over the segment. -/
theorem decodeLoop_copy (g : Nat → Bool) (seg : List Char) :
    ∀ (A B : List Char) (l f : Nat), '&' ∉ seg → A.length + seg.length ≤ l →
    decodeLoop g (f + seg.length) (A ++ (seg ++ B)) l A.length A.length none
      = decodeLoop g f (A ++ (seg ++ B)) l (A.length + seg.length)
          (A.length + seg.length) none := by
  induction seg with
  | nil => intro A B l f _ _; simp
  | cons c rest ih =>
    intro A B l f hfree hle
    have hl : A.length < l := by simp at hle; omega
    have hget : (A ++ (c :: (rest ++ B))).getD A.length ' ' = c := by
      rw [getD_eq_headD_drop, List.drop_left]; rfl
    have hc : c ≠ '&' := by intro h; exact hfree (h ▸ List.mem_cons_self c rest)
    have hstep : decodeLoop g (f + rest.length + 1) (A ++ (c :: (rest ++ B))) l
        A.length A.length none
        = decodeLoop g (f + rest.length)
            ((A ++ (c :: (rest ++ B))).set A.length c) l
            (A.length + 1) (A.length + 1) none := by
      simp only [decodeLoop, hl, if_true, hget, hc, if_false]
    have hset : (A ++ (c :: (rest ++ B))).set A.length c = A ++ (c :: (rest ++ B)) :=
      set_append_len A (rest ++ B) c c
    have hassoc : A ++ (c :: (rest ++ B)) = (A ++ [c]) ++ (rest ++ B) := by simp
    have hlen : A.length + 1 = (A ++ [c]).length := by simp
    have hfin := ih (A ++ [c]) B l f
      (fun h => hfree (List.mem_cons_of_mem c h))
      (by simp only [List.length_append, List.length_cons, List.length_nil] at hle ⊢; omega)
    calc decodeLoop g (f + (c :: rest).length) (A ++ (c :: (rest ++ B))) l
          A.length A.length none
        = decodeLoop g (f + rest.length + 1) (A ++ (c :: (rest ++ B))) l
          A.length A.length none := by
          congr 1
      _ = decodeLoop g (f + rest.length) (A ++ (c :: (rest ++ B))) l
          (A.length + 1) (A.length + 1) none := by rw [hstep, hset]
      _ = decodeLoop g f (A ++ (c :: (rest ++ B))) l
          (A.length + (c :: rest).length) (A.length + (c :: rest).length) none := by
          have harith : (A ++ [c]).length + rest.length = A.length + (c :: rest).length := by
            simp only [List.length_append, List.length_cons, List.length_nil]; omega
          rw [hassoc, hlen, hfin, harith]

/-- State-1 scan over a segment containing no semicolon: nothing is written,
only the read index advances. -/
theorem decodeLoop_scan (g : Nat → Bool) (seg : List Char) :
    ∀ (buf D : List Char) (l t h e f : Nat), ';' ∉ seg →
    buf.drop h = seg ++ D → h + seg.length ≤ l →
    decodeLoop g (f + seg.length) buf l t h (some e)
      = decodeLoop g f buf l t (h + seg.length) (some e) := by
  induction seg with
  | nil => intro buf D l t h e f _ _ _; simp
  | cons c rest ih =>
    intro buf D l t h e f hfree hdrop hle
    have hl : h < l := by simp at hle; omega
    have hget : buf.getD h ' ' = c := by
      rw [getD_eq_headD_drop, hdrop]; rfl
    have hc : ¬ (buf.getD h ' ' = ';' ∧ h > e) := by
      rw [hget]
      intro hcon
      exact hfree (hcon.1 ▸ List.mem_cons_self c rest)
    have hdrop1 : buf.drop (h + 1) = rest ++ D := by
      have h0 : buf.drop (h + 1) = (buf.drop h).drop 1 := by
        rw [List.drop_drop]
      rw [h0, hdrop]; rfl
    calc decodeLoop g (f + (c :: rest).length) buf l t h (some e)
        = decodeLoop g (f + rest.length + 1) buf l t h (some e) := by congr 1
      _ = decodeLoop g (f + rest.length) buf l t (h + 1) (some e) := by
          simp only [decodeLoop, hl, if_true, hc, if_false]
      _ = decodeLoop g f buf l t (h + 1 + rest.length) (some e) :=
          ih buf D l t (h + 1) e f (fun hm => hfree (List.mem_cons_of_mem c hm))
            hdrop1 (by simp at hle ⊢; omega)
      _ = decodeLoop g f buf l t (h + (c :: rest).length) (some e) := by
          congr 1
          simp
          omega

/-- State-0 run to the end of the buffer with the write index strictly below
the read index: the remaining bytes are shifted left one position at a time;
the returned length grows by the number of remaining bytes and the output
prefix is the old output prefix followed by those bytes. -/
theorem decodeLoop_tail (g : Nat → Bool) (post : List Char) :
    ∀ (buf : List Char) (t h f : Nat), t < h → '&' ∉ post →
    buf.drop h = post → h + post.length = buf.length →
    (decodeLoop g (f + post.length) buf buf.length t h none).2 = t + post.length ∧
    (decodeLoop g (f + post.length) buf buf.length t h none).1.take (t + post.length)
      = buf.take t ++ post := by
  induction post with
  | nil =>
    intro buf t h f _ _ _ hlen
    have hl : ¬ h < buf.length := by simp at hlen; omega
    cases f with
    | zero => simp [decodeLoop]
    | succ f => simp [decodeLoop, hl]
  | cons c rest ih =>
    intro buf t h f hth hfree hdrop hlen
    have hl : h < buf.length := by simp at hlen; omega
    have hget : buf.getD h ' ' = c := by rw [getD_eq_headD_drop, hdrop]; rfl
    have hc : c ≠ '&' := fun h0 => hfree (h0 ▸ List.mem_cons_self c rest)
    have hstep : decodeLoop g (f + rest.length + 1) buf buf.length t h none
        = decodeLoop g (f + rest.length) (buf.set t c) buf.length (t + 1) (h + 1) none := by
      simp only [decodeLoop, hl, if_true, hget, hc, if_false]
    have hsetlen : (buf.set t c).length = buf.length := by simp
    have hdrop1 : (buf.set t c).drop (h + 1) = rest := by
      rw [drop_set_of_lt buf t (h + 1) c (by omega)]
      have h0 : buf.drop (h + 1) = (buf.drop h).drop 1 := by rw [List.drop_drop]
      rw [h0, hdrop]; rfl
    have hih := ih (buf.set t c) (t + 1) (h + 1) f (by omega)
      (fun hm => hfree (List.mem_cons_of_mem c hm))
      hdrop1 (by simp at hlen ⊢; omega)
    rw [hsetlen] at hih
    have heq1 : f + (c :: rest).length = f + rest.length + 1 := by
      simp only [List.length_cons]
      omega
    constructor
    · rw [heq1, hstep, hih.1]
      simp
      omega
    · rw [heq1, hstep]
      have htake : (buf.set t c).take (t + 1) = buf.take t ++ [c] :=
        take_set_succ buf t c (by omega)
      have harith : t + (c :: rest).length = (t + 1) + rest.length := by simp; omega
      rw [harith, hih.2, htake]
      simp

/-- C5 (amended): a well-formed token that the decoder passes through -- a
named `&name;` token matching a table entity with no ASCII replacement, or a
numeric `&#...;` token whose digit run is followed by trailing garbage --
keeps its bytes from the `&` up to but excluding the terminating `;` in the
decoded buffer; the `;` itself is consumed and not emitted. Ampersand-free
bytes before and after the token are copied verbatim. -/
theorem C5_token_passthrough (g : Nat → Bool) (pre body post : List Char)
    (hpre : '&' ∉ pre) (hpost : '&' ∉ post) (hsemi : ';' ∉ body)
    (hnul : Char.ofNat 0 ∉ body)
    (hbranch : (body.headD ' ' ≠ '#' ∧ isNoReplacementName body) ∨
               (body.headD ' ' = '#' ∧ numericGarbage body)) :
    decodeOutput g (pre ++ ('&' :: (body ++ ';' :: post)))
      = pre ++ ('&' :: (body ++ post)) := by
  have hlbuf : (pre ++ ('&' :: (body ++ ';' :: post))).length
      = pre.length + body.length + post.length + 2 := by
    simp
    omega
  have hstep1 : decodeLoop g ((body.length + post.length + 2) + pre.length)
      (pre ++ ('&' :: (body ++ ';' :: post)))
      (pre ++ ('&' :: (body ++ ';' :: post))).length 0 0 none
      = decodeLoop g (body.length + post.length + 2)
        (pre ++ ('&' :: (body ++ ';' :: post)))
        (pre ++ ('&' :: (body ++ ';' :: post))).length pre.length pre.length none := by
    have h0 := decodeLoop_copy g pre [] ('&' :: (body ++ ';' :: post))
      (pre ++ ('&' :: (body ++ ';' :: post))).length
      (body.length + post.length + 2) hpre
      (by simp only [List.length_nil, Nat.zero_add]; rw [hlbuf]; omega)
    simpa using h0
  have hlt1 : pre.length < (pre ++ ('&' :: (body ++ ';' :: post))).length := by
    rw [hlbuf]; omega
  have hgetamp : (pre ++ ('&' :: (body ++ ';' :: post))).getD pre.length ' ' = '&' := by
    rw [getD_eq_headD_drop, List.drop_left]; rfl
  have hstep2 : decodeLoop g (body.length + post.length + 2)
      (pre ++ ('&' :: (body ++ ';' :: post)))
      (pre ++ ('&' :: (body ++ ';' :: post))).length pre.length pre.length none
      = decodeLoop g (body.length + post.length + 1)
        (pre ++ ('&' :: (body ++ ';' :: post)))
        (pre ++ ('&' :: (body ++ ';' :: post))).length pre.length (pre.length + 1)
        (some pre.length) := by
    show decodeLoop g ((body.length + post.length + 1) + 1) _ _ _ _ none = _
    simp only [decodeLoop, hlt1, if_true, hgetamp, if_pos rfl]
  have hdropbody : (pre ++ ('&' :: (body ++ ';' :: post))).drop (pre.length + 1)
      = body ++ (';' :: post) := by
    have hassoc1 : pre ++ ('&' :: (body ++ ';' :: post))
        = (pre ++ ['&']) ++ (body ++ ';' :: post) := by simp
    have hlen1 : (pre ++ ['&']).length = pre.length + 1 := by simp
    rw [hassoc1, ← hlen1, List.drop_left]
  have hstep3 : decodeLoop g (body.length + post.length + 1)
      (pre ++ ('&' :: (body ++ ';' :: post)))
      (pre ++ ('&' :: (body ++ ';' :: post))).length pre.length (pre.length + 1)
      (some pre.length)
      = decodeLoop g (post.length + 1)
        (pre ++ ('&' :: (body ++ ';' :: post)))
        (pre ++ ('&' :: (body ++ ';' :: post))).length pre.length
        ((pre.length + 1) + body.length) (some pre.length) := by
    have h0 := decodeLoop_scan g body (pre ++ ('&' :: (body ++ ';' :: post)))
      (';' :: post) (pre ++ ('&' :: (body ++ ';' :: post))).length pre.length
      (pre.length + 1) pre.length (post.length + 1) hsemi hdropbody
      (by rw [hlbuf]; omega)
    have harith : (post.length + 1) + body.length = body.length + post.length + 1 := by
      omega
    rw [harith] at h0
    exact h0
  have hgetsemi : (pre ++ ('&' :: (body ++ ';' :: post))).getD
      ((pre.length + 1) + body.length) ' ' = ';' := by
    rw [getD_eq_headD_drop]
    have hassoc2 : pre ++ ('&' :: (body ++ ';' :: post))
        = (pre ++ '&' :: body) ++ (';' :: post) := by simp
    have hlen2 : (pre ++ '&' :: body).length = (pre.length + 1) + body.length := by
      simp
      omega
    rw [hassoc2, ← hlen2, List.drop_left]
    rfl
  have hlt2 : (pre.length + 1) + body.length
      < (pre ++ ('&' :: (body ++ ';' :: post))).length := by
    rw [hlbuf]; omega
  have htokarith : (pre.length + 1) + body.length = pre.length + (body.length + 1) := by
    omega
  have hstep4 : decodeLoop g (post.length + 1)
      (pre ++ ('&' :: (body ++ ';' :: post)))
      (pre ++ ('&' :: (body ++ ';' :: post))).length pre.length
      ((pre.length + 1) + body.length) (some pre.length)
      = decodeLoop g post.length
        (pre ++ ('&' :: (body ++ ';' :: post)))
        (pre ++ ('&' :: (body ++ ';' :: post))).length
        (pre.length + (body.length + 1))
        (((pre.length + 1) + body.length) + 1) none := by
    show decodeLoop g (post.length + 1) _ _ _ _ _ = _
    simp only [decodeLoop, hlt2, if_true]
    rw [if_pos ⟨hgetsemi, by omega⟩]
    rw [htokarith, decodeEntity_passthrough g pre body post hnul hbranch]
  have hdroppost : (pre ++ ('&' :: (body ++ ';' :: post))).drop
      (((pre.length + 1) + body.length) + 1) = post := by
    have hassoc3 : pre ++ ('&' :: (body ++ ';' :: post))
        = ((pre ++ '&' :: body) ++ [';']) ++ post := by simp
    have hlen3 : ((pre ++ '&' :: body) ++ [';']).length
        = ((pre.length + 1) + body.length) + 1 := by
      simp
      omega
    rw [hassoc3, ← hlen3, List.drop_left]
  have htail := decodeLoop_tail g post (pre ++ ('&' :: (body ++ ';' :: post)))
    (pre.length + (body.length + 1)) (((pre.length + 1) + body.length) + 1) 0
    (by omega) hpost hdroppost (by rw [hlbuf]; omega)
  rw [Nat.zero_add] at htail
  have htakepre : (pre ++ ('&' :: (body ++ ';' :: post))).take
      (pre.length + (body.length + 1)) = pre ++ '&' :: body := by
    have hassoc2 : pre ++ ('&' :: (body ++ ';' :: post))
        = (pre ++ '&' :: body) ++ (';' :: post) := by simp
    have hlen2 : (pre ++ '&' :: body).length = pre.length + (body.length + 1) := by
      simp
    rw [hassoc2, ← hlen2, List.take_left]
  unfold decodeOutput rspamd_html_decode_entitles_inplace
  have hchain : decodeLoop g (pre ++ ('&' :: (body ++ ';' :: post))).length
      (pre ++ ('&' :: (body ++ ';' :: post)))
      (pre ++ ('&' :: (body ++ ';' :: post))).length 0 0 none
      = decodeLoop g post.length
        (pre ++ ('&' :: (body ++ ';' :: post)))
        (pre ++ ('&' :: (body ++ ';' :: post))).length
        (pre.length + (body.length + 1))
        (((pre.length + 1) + body.length) + 1) none := by
    have hfc : decodeLoop g (pre ++ ('&' :: (body ++ ';' :: post))).length
        (pre ++ ('&' :: (body ++ ';' :: post)))
        (pre ++ ('&' :: (body ++ ';' :: post))).length 0 0 none
        = decodeLoop g ((body.length + post.length + 2) + pre.length)
          (pre ++ ('&' :: (body ++ ';' :: post)))
          (pre ++ ('&' :: (body ++ ';' :: post))).length 0 0 none := by
      apply decodeLoop_fuel_congr <;> rw [hlbuf] <;> omega
    rw [hfc, hstep1, hstep2, hstep3, hstep4]
  simp only [hchain]
  rw [htail.1, htail.2, htakepre]
  simp

/-- C2: the claim that `rspamd_html_decode_entitles_inplace` always returns a
length not exceeding the input length fails on the code: the six-byte buffer
`&#164;` resolves through the numeric entity table to the seven-byte
replacement `current`, so the function returns 7 for an input of length 6
(and in C writes one byte past the six-byte allocation its callers provide).
This evaluates the embedded decoder at that failing input. -/
theorem C2_decode_expands_on_numeric_entity :
    ("&#164;".toList.length = 6) ∧
    (rspamd_html_decode_entitles_inplace (fun _ => false) "&#164;".toList).2 = 7 ∧
    6 < (rspamd_html_decode_entitles_inplace (fun _ => false) "&#164;".toList).2 := by
  refine ⟨rfl, by decide, by decide⟩

/-- C5 counterexample: `brvbar` is a named entity with no ASCII replacement,
yet decoding the buffer `&brvbar;` yields `&brvbar` -- the terminating `;` is
consumed and never emitted, so the token does not appear "from the `&` through
the terminating `;` inclusive" anywhere in the decoded output. -/
theorem C5_counterexample_semicolon_dropped :
    findEntityByName "brvbar".toList = some ⟨"brvbar", 166, none⟩ ∧
    decodeOutput (fun _ => false) "&brvbar;".toList = "&brvbar".toList ∧
    ¬ ("&brvbar;".toList <:+: decodeOutput (fun _ => false) "&brvbar;".toList) := by
  refine ⟨by decide, by decide, by decide⟩

/-- Witness for `C5_token_passthrough` at a concrete input: prefix `x `,
token `&brvbar;`, suffix `y`. -/
theorem C5_token_passthrough_witness :
    decodeOutput (fun _ => false)
        ("x ".toList ++ ('&' :: ("brvbar".toList ++ ';' :: "y".toList)))
      = "x ".toList ++ ('&' :: ("brvbar".toList ++ "y".toList)) :=
  C5_token_passthrough (fun _ => false) "x ".toList "brvbar".toList "y".toList
    (by decide) (by decide) (by decide) (by decide)
    (Or.inl ⟨by decide, by decide⟩)

/-- C3: the claim that `rspamd_words_levenshtein_distance` charges 2 for
substituting positions whose hashes DIFFER fails on the code: `eq` is computed
as 1 when the hashes are EQUAL and the diagonal cost is `lastdiag + eq * 2`,
so a match costs 2 and a mismatching substitution costs 0 -- the opposite of
the cost model stated by the claim and by the comment in the source. Two
identical five-hash sequences get distance 2 (the claim says 0), and the
five-hash sequences with 3 mismatched corresponding positions get distance 2
(the claim says 6). -/
theorem C3_levenshtein_cost_inverted :
    rspamd_words_levenshtein_distance [1, 2, 3, 4, 5] [1, 2, 3, 4, 5] = 2 ∧
    rspamd_words_levenshtein_distance [1, 2, 3, 4, 5] [1, 9, 8, 7, 5] = 2 := by
  refine ⟨by decide, by decide⟩

set_option maxRecDepth 40000 in
/-- C10: over the static tag table, the two lookups are mutually inverse --
`rspamd_html_tag_by_name` maps every entry name (case-insensitively) to its
id and `rspamd_html_tag_by_id` maps the id back to the name; a name matching
no entry yields -1 and an id matching no entry yields `none` (NULL). -/
theorem C10_tag_lookups_inverse :
    (∀ d ∈ tag_defs, rspamd_html_tag_by_name d.name = Int.ofNat d.id ∧
        rspamd_html_tag_by_id (Int.ofNat d.id) = some d.name) ∧
    (∀ nm : String, (∀ d ∈ tag_defs, ¬ ascii_caseq d.name.toList nm.toList) →
        rspamd_html_tag_by_name nm = -1) ∧
    (∀ id : Int, (∀ d ∈ tag_defs, (d.id : Int) ≠ id) →
        rspamd_html_tag_by_id id = none) := by
  refine ⟨by decide, ?_, ?_⟩
  · intro nm hab
    unfold rspamd_html_tag_by_name
    rw [List.find?_eq_none.mpr (fun d hd => by simpa using hab d hd)]
  · intro id hab
    unfold rspamd_html_tag_by_id
    rw [List.find?_eq_none.mpr (fun d hd => by simpa using hab d hd)]
    rfl

set_option maxRecDepth 40000 in
/-- Witness for `C10_tag_lookups_inverse` at concrete inputs: the name
`frobnicate` and the id 4096 are absent from the table. -/
theorem C10_tag_lookups_inverse_witness :
    rspamd_html_tag_by_name "frobnicate" = -1 ∧
    rspamd_html_tag_by_id 4096 = none :=
  ⟨C10_tag_lookups_inverse.2.1 "frobnicate" (by decide),
   C10_tag_lookups_inverse.2.2 4096 (by decide)⟩

theorem check_dups_flag_iff :
    ∀ (tags : List InputTag) (st : SeenState),
    ((tags.foldl rspamd_html_check_dup_step st).dupFlag = true ↔
      st.dupFlag = true ∨
      ∃ l2 t2 l3, tags = l2 ++ t2 :: l3 ∧ t2.id ≠ -1 ∧ t2.id < (N_TAGS : Int) ∧
        t2.flags.cmUnique = true ∧
        (t2.id ∈ st.tagsSeen ∨ ∃ t1 ∈ l2, t1.id = t2.id ∧ t1.id ≠ -1 ∧
          t1.id < (N_TAGS : Int))) := by
  intro tags
  induction tags with
  | nil =>
    intro st
    simp
  | cons t rest ih =>
    intro st
    rw [List.foldl_cons]
    by_cases hv : t.id ≠ -1 ∧ t.id < (N_TAGS : Int)
    · rw [show rspamd_html_check_dup_step st t
          = ⟨t.id :: st.tagsSeen,
             st.dupFlag || (t.flags.cmUnique && decide (t.id ∈ st.tagsSeen))⟩ from by
        unfold rspamd_html_check_dup_step
        rw [if_pos hv]]
      rw [ih]
      constructor
      · rintro (hfl | ⟨l2, t2, l3, hsplit, hv2, hlt2, hu2, hseen⟩)
        · rcases Bool.or_eq_true_iff.mp hfl with h0 | h0
          · exact Or.inl h0
          · obtain ⟨hu, hm⟩ := Bool.and_eq_true_iff.mp h0
            exact Or.inr ⟨[], t, rest, by simp, hv.1, hv.2, hu,
              Or.inl (of_decide_eq_true hm)⟩
        · refine Or.inr ⟨t :: l2, t2, l3, by rw [hsplit]; rfl, hv2, hlt2, hu2, ?_⟩
          rcases hseen with hmem | ⟨t1, ht1, hx⟩
          · rcases List.mem_cons.mp hmem with heq | hmem0
            · exact Or.inr ⟨t, List.mem_cons_self t l2, heq.symm, hv.1, hv.2⟩
            · exact Or.inl hmem0
          · exact Or.inr ⟨t1, List.mem_cons_of_mem t ht1, hx⟩
      · rintro (hfl | ⟨l2, t2, l3, hsplit, hv2, hlt2, hu2, hseen⟩)
        · exact Or.inl (Bool.or_eq_true_iff.mpr (Or.inl hfl))
        · cases l2 with
          | nil =>
            rw [List.nil_append] at hsplit
            injection hsplit with h1 h2
            subst h1
            subst h2
            rcases hseen with hmem | ⟨t1, ht1, _⟩
            · exact Or.inl (Bool.or_eq_true_iff.mpr (Or.inr
                (Bool.and_eq_true_iff.mpr ⟨hu2, decide_eq_true hmem⟩)))
            · exact absurd ht1 (List.not_mem_nil t1)
          | cons thead l2t =>
            rw [List.cons_append] at hsplit
            injection hsplit with h1 h2
            subst h1
            refine Or.inr ⟨l2t, t2, l3, h2, hv2, hlt2, hu2, ?_⟩
            rcases hseen with hmem | ⟨t1, ht1, hx⟩
            · exact Or.inl (List.mem_cons_of_mem t.id hmem)
            · rcases List.mem_cons.mp ht1 with heq | hmem0
              · exact Or.inl (List.mem_cons.mpr (Or.inl (heq ▸ hx.1).symm))
              · exact Or.inr ⟨t1, hmem0, hx⟩
    · rw [show rspamd_html_check_dup_step st t = st from by
        unfold rspamd_html_check_dup_step
        rw [if_neg hv]]
      rw [ih]
      constructor
      · rintro (hfl | ⟨l2, t2, l3, hsplit, hv2, hlt2, hu2, hseen⟩)
        · exact Or.inl hfl
        · refine Or.inr ⟨t :: l2, t2, l3, by rw [hsplit]; rfl, hv2, hlt2, hu2, ?_⟩
          rcases hseen with hmem | ⟨t1, ht1, hx⟩
          · exact Or.inl hmem
          · exact Or.inr ⟨t1, List.mem_cons_of_mem t ht1, hx⟩
      · rintro (hfl | ⟨l2, t2, l3, hsplit, hv2, hlt2, hu2, hseen⟩)
        · exact Or.inl hfl
        · cases l2 with
          | nil =>
            rw [List.nil_append] at hsplit
            injection hsplit with h1 h2
            subst h1
            exact absurd ⟨hv2, hlt2⟩ hv
          | cons thead l2t =>
            rw [List.cons_append] at hsplit
            injection hsplit with h1 h2
            subst h1
            refine Or.inr ⟨l2t, t2, l3, h2, hv2, hlt2, hu2, ?_⟩
            rcases hseen with hmem | ⟨t1, ht1, hx⟩
            · exact Or.inl hmem
            · rcases List.mem_cons.mp ht1 with heq | hmem0
              · exact absurd ⟨heq ▸ hx.2.1, heq ▸ hx.2.2⟩ hv
              · exact Or.inr ⟨t1, hmem0, hx⟩

/-- C7 counterexample: the table entry for `html` is flagged must-appear-once,
and the two tag records of a single `<html>...</html>` element -- one opening,
one closing -- already raise the duplicate-elements flag, because the
uniqueness check of `rspamd_html_process_part_full` is not guarded by
`FL_CLOSING` and the closing tag re-encounters the id whose bit the opening
tag set. The claim says such a document does not get the flag. -/
theorem C7_counterexample_single_html_element :
    (⟨"html", 42, { cmUnique := true }⟩ : html_tag_def) ∈ tag_defs ∧
    (rspamd_html_check_dups
        [openTag ⟨"html", 42, { cmUnique := true }⟩,
         closeTag ⟨"html", 42, { cmUnique := true }⟩]).dupFlag = true := by
  refine ⟨by decide, by decide⟩

/-- C7 (amended): the duplicate-elements flag is set exactly when some
completed tag record with a valid id and a must-appear-once definition is
processed while an earlier tag record with the same id has already been
recorded -- counting opening, closing and self-closed tags alike (so a single
`<html>...</html>` element sets the flag via its closing tag). -/
theorem C7_duplicate_flag_characterization (tags : List InputTag) :
    (rspamd_html_check_dups tags).dupFlag = true ↔
      ∃ l2 t2 l3, tags = l2 ++ t2 :: l3 ∧ t2.id ≠ -1 ∧ t2.id < (N_TAGS : Int) ∧
        t2.flags.cmUnique = true ∧ ∃ t1 ∈ l2, t1.id = t2.id := by
  unfold rspamd_html_check_dups
  rw [check_dups_flag_iff]
  constructor
  · rintro (hfl | ⟨l2, t2, l3, hs, h1, h2, h3, hmem | ⟨t1, ht1, hx⟩⟩)
    · exact absurd hfl (by decide)
    · exact absurd hmem (List.not_mem_nil t2.id)
    · exact ⟨l2, t2, l3, hs, h1, h2, h3, t1, ht1, hx.1⟩
  · rintro ⟨l2, t2, l3, hs, h1, h2, h3, t1, ht1, hx⟩
    exact Or.inr ⟨l2, t2, l3, hs, h1, h2, h3,
      Or.inr ⟨t1, ht1, hx, by rw [hx]; exact h1, by rw [hx]; exact h2⟩⟩

/-- Witness for `C7_duplicate_flag_characterization` at a concrete input: two
`<title>` opening tags. -/
theorem C7_duplicate_flag_characterization_witness :
    (rspamd_html_check_dups
        [openTag ⟨"title", 93, { cmHead := true, cmUnique := true }⟩,
         openTag ⟨"title", 93, { cmHead := true, cmUnique := true }⟩]).dupFlag
      = true :=
  (C7_duplicate_flag_characterization _).mpr
    ⟨[openTag ⟨"title", 93, { cmHead := true, cmUnique := true }⟩],
     openTag ⟨"title", 93, { cmHead := true, cmUnique := true }⟩, [],
     rfl, by decide, by decide, by decide,
     openTag ⟨"title", 93, { cmHead := true, cmUnique := true }⟩,
     List.mem_cons_self _ _, rfl⟩


/-- Every hex-digit byte is a base-16 digit below 16 and is none of the bytes
`strtoul` treats specially. -/
lemma hexChars_props : ∀ c ∈ hexChars,
    (baseDigitVal 16 c).isSome = true ∧ (baseDigitVal 16 c).getD 0 < 16 ∧
    g_ascii_isspace c = false ∧ c ≠ '-' ∧ c ≠ '+' ∧ c ≠ 'x' ∧ c ≠ 'X' ∧
    c ≠ Char.ofNat 0 := by decide

lemma strtoulDigits_hex (s : List Char) (hs : ∀ c ∈ s, c ∈ hexChars) : ∀ acc,
    ∃ v, strtoulDigits 16 s acc = (v, [], decide (s ≠ [])) ∧
      v < (acc + 1) * 16 ^ s.length := by
  induction s with
  | nil => intro acc; exact ⟨acc, by simp [strtoulDigits], by simp⟩
  | cons c rest ih =>
    intro acc
    have hc := hexChars_props c (hs c (List.mem_cons_self c rest))
    obtain ⟨d, hd⟩ := Option.isSome_iff_exists.mp hc.1
    have hdlt : d < 16 := by
      have := hc.2.1
      rw [hd] at this
      simpa using this
    obtain ⟨v, hv, hvlt⟩ := ih (fun x hx => hs x (List.mem_cons_of_mem c hx)) (acc * 16 + d)
    refine ⟨v, ?_, ?_⟩
    · simp only [strtoulDigits, hd, hv]
      simp
    · calc v < (acc * 16 + d + 1) * 16 ^ rest.length := hvlt
        _ ≤ (acc + 1) * 16 ^ (c :: rest).length := by
          simp only [List.length_cons, pow_succ]
          nlinarith [pow_pos (show 0 < 16 by norm_num) rest.length]

/-- `strtoulDigits` consumes an all-hex-digit run completely, and the
accumulated value is bounded by the digit count. -/
lemma strtoulSign_of_ne (c : Char) (r : List Char) (h1 : c ≠ '-') (h2 : c ≠ '+') :
    strtoulSign (c :: r) = (false, c :: r) := by
  rw [strtoulSign.eq_def]
  split
  · next heq => injection heq with hx _; exact absurd hx h1
  · next heq => injection heq with hx _; exact absurd hx h2
  · rfl

lemma strtoulBody_16_of_no_skip (s : List Char)
    (h : ∀ x r, s = '0' :: x :: r → x ≠ 'x' ∧ x ≠ 'X') :
    strtoulBody 16 s = s := by
  rw [strtoulBody.eq_def]
  rw [if_pos rfl]
  split
  · next _u x r =>
    rw [if_neg]
    rintro ⟨hxx | hxx, -⟩
    · exact (h x r rfl).1 hxx
    · exact (h x r rfl).2 hxx
  · rfl

lemma strtoulModel_hex_lt (s : List Char) (hs : ∀ c ∈ s, c ∈ hexChars)
    (hlen : s.length ≤ 6) : (strtoulModel s 16).1 < 2 ^ 24 := by
  cases s with
  | nil => decide
  | cons c r =>
    have hc := hexChars_props c (hs c (List.mem_cons_self c r))
    have hds : (c :: r).dropWhile (fun x => g_ascii_isspace x) = c :: r := by
      simp [List.dropWhile_cons, hc.2.2.1]
    have hsign : strtoulSign (c :: r) = (false, c :: r) :=
      strtoulSign_of_ne c r hc.2.2.2.1 hc.2.2.2.2.1
    have hbody : strtoulBody 16 (c :: r) = c :: r := by
      apply strtoulBody_16_of_no_skip
      intro x rr heq
      have hxmem : x ∈ c :: r := by
        rw [heq]; exact List.mem_cons_of_mem _ (List.mem_cons_self x rr)
      have hx := hexChars_props x (hs x hxmem)
      exact ⟨hx.2.2.2.2.2.1, hx.2.2.2.2.2.2.1⟩
    obtain ⟨v, hv, hvlt⟩ := strtoulDigits_hex (c :: r) hs 0
    have hv24 : v < 2 ^ 24 := by
      calc v < 1 * 16 ^ (c :: r).length := hvlt
        _ = 16 ^ (c :: r).length := one_mul _
        _ ≤ 16 ^ 6 := Nat.pow_le_pow_right (by norm_num) hlen
        _ = 2 ^ 24 := by norm_num
    simp only [strtoulModel, hds, hsign, hbody, hv]
    have hne : decide ((c :: r : List Char) ≠ []) = true := by simp
    have hmax : ¬ v > ulongMax := by
      unfold ulongMax
      have : (2 : Nat) ^ 24 ≤ 2 ^ 64 - 1 := by norm_num
      omega
    simp only [hne, if_true]
    rw [if_neg hmax]
    simp only [Bool.false_eq_true, if_false]
    simpa using hv24


/-- C8 counterexample: the hex form `#ffffff` parses as a valid color whose
stored alpha component is 0, not opaque 255, and the document default
background color is likewise stored with alpha 0. -/
theorem C8_counterexample_hex_and_default_alpha :
    (rspamd_html_process_color [] ("#ffffff".toList)).valid = true ∧
    alphaOf (rspamd_html_process_color [] ("#ffffff".toList)).val = 0 ∧
    html_default_bgcolor.valid = true ∧
    alphaOf html_default_bgcolor.val = 0 := by decide

/-- C8 (amended): only named-table color lookups and the fallback font color
are stored with alpha 255; a `#` form with a hex-digit tail, a valid
`rgb()`/`rgba()` form with in-range components, and the default background
color are all stored with alpha 0. -/
theorem C8_color_alpha :
    (∀ tbl line, line.getD 0 ' ' = '#' →
      (∀ c ∈ line.drop 1, c ∈ hexChars) →
      (rspamd_html_process_color tbl line).valid = true ∧
        alphaOf (rspamd_html_process_color tbl line).val = 0) ∧
    (∀ tbl line r g b, ¬ line.getD 0 ' ' = '#' →
      (line.length > 4 ∧ ascii_caseq (line.take 3) ['r', 'g', 'b']) →
      rgbBranchResult line = (r, g, b, true) →
      r < 256 → g < 256 → b < 256 →
      (rspamd_html_process_color tbl line).valid = true ∧
        alphaOf (rspamd_html_process_color tbl line).val = 0) ∧
    (∀ tbl line e, ¬ line.getD 0 ' ' = '#' →
      ¬ (line.length > 4 ∧ ascii_caseq (line.take 3) ['r', 'g', 'b']) →
      List.find? (fun en => ascii_caseq en.1.toList line) tbl = some e →
      e.2.1 < 256 → e.2.2.1 < 256 → e.2.2.2 < 256 →
      (rspamd_html_process_color tbl line).valid = true ∧
        alphaOf (rspamd_html_process_color tbl line).val = 255) ∧
    (html_default_bgcolor.valid = true ∧ alphaOf html_default_bgcolor.val = 0 ∧
      html_fallback_font_color.valid = true ∧
      alphaOf html_fallback_font_color.val = 255) := by
  refine ⟨?_, ?_, ?_, by decide⟩
  · intro tbl line hhash hhex
    unfold rspamd_html_process_color
    rw [if_pos hhash]
    refine ⟨rfl, ?_⟩
    show alphaOf ((strtoulModel (((line.drop 1).take (min 6 (line.length - 1))).takeWhile
        (fun c => c ≠ Char.ofNat 0)) 16).1 % 2 ^ 32) = 0
    have hsub : ∀ c ∈ ((line.drop 1).take (min 6 (line.length - 1))).takeWhile
        (fun c => c ≠ Char.ofNat 0), c ∈ hexChars := by
      intro c hcmem
      apply hhex
      apply List.take_subset
      exact (List.takeWhile_sublist _).subset hcmem
    have hlen6 : (((line.drop 1).take (min 6 (line.length - 1))).takeWhile
        (fun c => c ≠ Char.ofNat 0)).length ≤ 6 := by
      refine le_trans (List.takeWhile_sublist _).length_le ?_
      rw [List.length_take]
      exact le_trans (min_le_left _ _) (min_le_left _ _)
    have hlt := strtoulModel_hex_lt _ hsub hlen6
    unfold alphaOf
    rw [Nat.mod_eq_of_lt (lt_trans hlt (by norm_num)), Nat.div_eq_of_lt hlt]
  · intro tbl line r g b hhash hrgb hres hr hg hb
    unfold rspamd_html_process_color
    rw [if_neg hhash, if_pos hrgb, hres]
    refine ⟨rfl, ?_⟩
    show alphaOf ((b + g * 2 ^ 8 + r * 2 ^ 16) % 2 ^ 32) = 0
    have hlt : b + g * 2 ^ 8 + r * 2 ^ 16 < 2 ^ 24 := by
      norm_num
      omega
    unfold alphaOf
    rw [Nat.mod_eq_of_lt (lt_trans hlt (by norm_num)), Nat.div_eq_of_lt hlt]
  · intro tbl line e hhash hnrgb hfind hr hg hb
    unfold rspamd_html_process_color
    rw [if_neg hhash, if_neg hnrgb, hfind]
    refine ⟨rfl, ?_⟩
    show alphaOf (compVal 255 e.2.1 e.2.2.1 e.2.2.2) = 0 + 255
    unfold alphaOf compVal
    norm_num
    omega

/-- Witness for `C8_color_alpha` at concrete inputs for each parsing form. -/
theorem C8_color_alpha_witness :
    ((rspamd_html_process_color [] ("#a0b1c2".toList)).valid = true ∧
      alphaOf (rspamd_html_process_color [] ("#a0b1c2".toList)).val = 0) ∧
    ((rspamd_html_process_color [] ("rgba(1,2,3,4)".toList)).valid = true ∧
      alphaOf (rspamd_html_process_color [] ("rgba(1,2,3,4)".toList)).val = 0) ∧
    ((rspamd_html_process_color [("red", 255, 0, 0)] ("Red".toList)).valid = true ∧
      alphaOf (rspamd_html_process_color [("red", 255, 0, 0)] ("Red".toList)).val = 255) :=
  ⟨C8_color_alpha.1 [] _ (by decide) (by decide),
    C8_color_alpha.2.1 [] _ 1 2 3 (by decide) (by decide) (by decide)
      (by decide) (by decide) (by decide),
    C8_color_alpha.2.2.1 [("red", 255, 0, 0)] _ ("red", 255, 0, 0) (by decide) (by decide)
      (by decide) (by decide) (by decide) (by decide)⟩

/-- C9 counterexample: the trimmed span `//` contains no colon and starts with
`//`, yet it is prefixed with `http://` (the length guard `len > 2` fails),
producing `http:////` instead of the spec's `http:` + span. -/
theorem C9_counterexample_double_slash :
    (':' ∉ trimSpaces ("//".toList)) ∧
    (trimSpaces ("//".toList)).take 2 = ['/', '/'] ∧
    buildUrlString ("//".toList) = ("http:////".toList) ∧
    ¬ buildUrlString ("//".toList) =
      ("http:".toList ++ urlEncodeScan (trimSpaces ("//".toList))) := by decide

/-- C9 (amended): for every attribute span whose trimmed form is not the bare
two-byte span `//`, the string handed to the URL parser matches the spec's
description (prefix `http:` when the span starts with `//` and at least one
byte follows, otherwise `http://`, and no prefix when a `:` byte is present);
the schemeless flag is set on a successfully parsed URL exactly when the
trimmed span contains no `:` byte. -/
theorem C9_url_prefixing_refines (input : List Char) :
    (trimSpaces input ≠ ['/', '/'] →
      buildUrlString input = specSchemelessBuild (trimSpaces input)) ∧
    (':' ∈ trimSpaces input →
      buildUrlString input = urlEncodeScan (trimSpaces input)) ∧
    (∀ parse d fl,
      rspamd_html_process_url_model parse input = some (d, fl) →
      d = buildUrlString input ∧ (fl = true ↔ ':' ∉ trimSpaces input)) := by
  refine ⟨?_, ?_, ?_⟩
  · intro hne
    unfold buildUrlString specSchemelessBuild
    by_cases hc : ':' ∈ trimSpaces input
    · rw [if_pos hc, if_pos hc]
    · rw [if_neg hc, if_neg hc]
      have hAB : (trimSpaces input).getD 0 ' ' = '/' ∧
          ((trimSpaces input).length > 2 ∧ (trimSpaces input).getD 1 ' ' = '/') ↔
          (trimSpaces input).take 2 = ['/', '/'] := by
        rcases htt : trimSpaces input with _ | ⟨c1, _ | ⟨c2, rest⟩⟩
        · simp
        · simp
        · rcases rest with _ | ⟨c3, rest2⟩
          · rw [htt] at hne
            constructor
            · rintro ⟨-, h2, -⟩; simp at h2
            · intro hb
              simp at hb
              exact absurd (by rw [hb.1, hb.2]) hne
          · simp only [List.getD_cons_zero, List.getD_cons_succ, List.take,
              List.length_cons, List.cons.injEq, and_true]
            constructor
            · rintro ⟨h1, -, h2⟩; exact ⟨h1, h2⟩
            · rintro ⟨h1, h2⟩; exact ⟨h1, by omega, h2⟩
      rw [if_congr hAB rfl rfl]
  · intro hc
    unfold buildUrlString
    rw [if_pos hc]
  · intro parse d fl h
    unfold rspamd_html_process_url_model at h
    by_cases hp : parse (buildUrlString input) = true
    · rw [if_pos hp] at h
      injection h with h2
      injection h2 with hd hfl
      refine ⟨hd.symm, ?_⟩
      rw [← hfl]
      simp
    · rw [if_neg hp] at h
      exact absurd h (by simp)

/-- Witness for `C9_url_prefixing_refines` on concrete spans. -/
theorem C9_url_prefixing_refines_witness :
    (buildUrlString ("a.com".toList) = specSchemelessBuild (trimSpaces ("a.com".toList)) ∧
      buildUrlString ("mailto:x".toList) = urlEncodeScan (trimSpaces ("mailto:x".toList))) ∧
    ("http://a.com".toList = buildUrlString ("a.com".toList) ∧
      (true = true ↔ ':' ∉ trimSpaces ("a.com".toList))) :=
  ⟨⟨(C9_url_prefixing_refines ("a.com".toList)).1 (by decide),
    (C9_url_prefixing_refines ("mailto:x".toList)).2.1 (by decide)⟩,
    (C9_url_prefixing_refines ("a.com".toList)).2.2 (fun _ => true) _ _ (by decide)⟩

/-- Indexing an append past the left part reads the right part. -/
lemma getD_append_offset (B : List Char) (j : Nat) : ∀ (A : List Char),
    (A ++ B).getD (A.length + j) ' ' = B.getD j ' ' := by
  intro A
  induction A with
  | nil => simp
  | cons a A ih =>
    have h : (a :: A).length + j = (A.length + j) + 1 := by
      simp only [List.length_cons]; omega
    rw [List.cons_append, h, List.getD_cons_succ, ih]

lemma skipDots_eq_of_not_dot (t : List Char) (i : Nat)
    (h : t.getD i ' ' ≠ '.') : skipDots t i = i := by
  cases i with
  | zero => rfl
  | succ i => simp only [skipDots, if_pos h]

lemma cmpLoop_eq_of_suffix (t1 t2 : List Char) (p : Nat)
    (hbytes : ∀ j, 1 ≤ j → t1.getD (p + 1 + j) ' ' = t2.getD j ' ') :
    ∀ k, cmpLoop t1 t2 (p + 1 + k) k = (p + 1, 0) := by
  intro k
  induction k with
  | zero => rfl
  | succ k ih =>
    have harg : p + 1 + (k + 1) = (p + 1 + k) + 1 := by omega
    rw [harg]
    have hb := hbytes (k + 1) (by omega)
    rw [harg] at hb
    simp only [cmpLoop, if_pos hb]
    exact ih

lemma cmpLoop_eq_of_suffix_mirror (t1 t2 : List Char) (p : Nat)
    (hbytes : ∀ j, 1 ≤ j → t1.getD j ' ' = t2.getD (p + 1 + j) ' ') :
    ∀ k, cmpLoop t1 t2 k (p + 1 + k) = (0, p + 1) := by
  intro k
  induction k with
  | zero => rfl
  | succ k ih =>
    have harg : p + 1 + (k + 1) = (p + 1 + k) + 1 := by omega
    rw [harg]
    have hb := hbytes (k + 1) (by omega)
    rw [harg] at hb
    simp only [cmpLoop, if_pos hb]
    exact ih

lemma suffix_bytes (pre t2 : List Char) :
    ∀ j, 1 ≤ j → (pre ++ '.' :: t2).getD (pre.length + 1 + j) ' ' = t2.getD j ' ' := by
  intro j _
  have h1 : pre ++ '.' :: t2 = (pre ++ ['.']) ++ t2 := by simp
  have h2 : pre.length + 1 + j = (pre ++ ['.']).length + j := by simp
  rw [h1, h2, getD_append_offset]

lemma last_byte_of_append (pre t2 : List Char) (ht2 : t2 ≠ []) :
    (pre ++ '.' :: t2).getD ((pre ++ '.' :: t2).length - 1) ' '
      = t2.getD (t2.length - 1) ' ' := by
  have h1 : pre ++ '.' :: t2 = (pre ++ ['.']) ++ t2 := by simp
  rw [h1]
  have hlen : (pre ++ ['.'] ++ t2).length - 1 = (pre ++ ['.']).length + (t2.length - 1) := by
    simp only [List.length_append, List.length_cons, List.length_nil]
    have : t2.length ≠ 0 := fun h => ht2 (List.length_eq_zero.mp h)
    omega
  rw [hlen, getD_append_offset]

lemma is_subdomain_of_dot_suffix (pre t2 : List Char) (hpre : pre ≠ [])
    (ht2 : t2 ≠ []) (hlast : t2.getD (t2.length - 1) ' ' ≠ '.') :
    rspamd_url_is_subdomain (pre ++ '.' :: t2) t2 = true := by
  have hlast1 : (pre ++ '.' :: t2).getD ((pre ++ '.' :: t2).length - 1) ' ' ≠ '.' := by
    rw [last_byte_of_append pre t2 ht2]; exact hlast
  have hsd1 := skipDots_eq_of_not_dot _ _ hlast1
  have hsd2 := skipDots_eq_of_not_dot _ _ hlast
  have hlen1 : (pre ++ '.' :: t2).length - 1 = pre.length + 1 + (t2.length - 1) := by
    simp only [List.length_append, List.length_cons]
    have : t2.length ≠ 0 := fun h => ht2 (List.length_eq_zero.mp h)
    omega
  have hcmp := cmpLoop_eq_of_suffix (pre ++ '.' :: t2) t2 pre.length
    (suffix_bytes pre t2) (t2.length - 1)
  have hdot : (pre ++ '.' :: t2).getD (pre.length + 1 - 1) ' ' = '.' := by
    have : pre.length + 1 - 1 = pre.length + 0 := by omega
    rw [this, getD_append_offset]
    rfl
  have e1 : skipDots (pre ++ '.' :: t2) ((pre ++ '.' :: t2).length - 1)
      = pre.length + 1 + (t2.length - 1) := hsd1.trans hlen1
  simp only [rspamd_url_is_subdomain, e1, hsd2, hcmp]
  have hdot2 : (pre ++ '.' :: t2).getD pre.length ' ' = '.' := by
    have h0 : pre.length = pre.length + 0 := rfl
    rw [h0, getD_append_offset]
    rfl
  rw [if_true]
  simp only [show pre.length + 1 - 1 = pre.length from rfl, hdot2]
  simp

lemma is_subdomain_of_dot_suffix_mirror (pre t2 : List Char) (hpre : pre ≠ [])
    (ht2 : t2 ≠ []) (hlast : t2.getD (t2.length - 1) ' ' ≠ '.') :
    rspamd_url_is_subdomain t2 (pre ++ '.' :: t2) = true := by
  have hlast1 : (pre ++ '.' :: t2).getD ((pre ++ '.' :: t2).length - 1) ' ' ≠ '.' := by
    rw [last_byte_of_append pre t2 ht2]; exact hlast
  have hsd1 := skipDots_eq_of_not_dot _ _ hlast1
  have hsd2 := skipDots_eq_of_not_dot _ _ hlast
  have hlen1 : (pre ++ '.' :: t2).length - 1 = pre.length + 1 + (t2.length - 1) := by
    simp only [List.length_append, List.length_cons]
    have : t2.length ≠ 0 := fun h => ht2 (List.length_eq_zero.mp h)
    omega
  have hcmp := cmpLoop_eq_of_suffix_mirror t2 (pre ++ '.' :: t2) pre.length
    (fun j hj => (suffix_bytes pre t2 j hj).symm) (t2.length - 1)
  have hdot : (pre ++ '.' :: t2).getD (pre.length + 1 - 1) ' ' = '.' := by
    have : pre.length + 1 - 1 = pre.length + 0 := by omega
    rw [this, getD_append_offset]
    rfl
  have e1 : skipDots (pre ++ '.' :: t2) ((pre ++ '.' :: t2).length - 1)
      = pre.length + 1 + (t2.length - 1) := hsd1.trans hlen1
  simp only [rspamd_url_is_subdomain, e1, hsd2, hcmp]
  have hdot2 : (pre ++ '.' :: t2).getD pre.length ' ' = '.' := by
    have h0 : pre.length = pre.length + 0 := rfl
    rw [h0, getD_append_offset]
    rfl
  rw [if_true]
  simp only [show pre.length + 1 - 1 = pre.length from rfl, hdot2]
  simp

/-- C1 counterexample: for href host `bank.xom` (TLD `xom`) and displayed URL
`http://a.com/` (host and TLD `a.com`), hosts and TLDs differ case-insensitively
and neither TLD is a dot-bounded suffix of the other, so the spec requires the
phished flag; but `rspamd_url_is_subdomain "a.com" "xom"` returns true (the
backwards comparison loop never compares the first byte of the shorter token,
and `a.com` has a dot before its last two bytes), so no flag is set. -/
theorem C1_counterexample_subdomain_first_char :
    ascii_caseq ("a.com".toList) ("bank.xom".toList) = false ∧
    ascii_caseq ("a.com".toList) ("xom".toList) = false ∧
    specDotBoundedSuffix ("a.com".toList) ("xom".toList) = false ∧
    specDotBoundedSuffix ("xom".toList) ("a.com".toList) = false ∧
    rspamd_url_is_subdomain ("a.com".toList) ("xom".toList) = true ∧
    (rspamd_html_url_is_phished
      (fun t => if t = "http://a.com/".toList then some ("http://a.com/".toList, 0) else none)
      (fun s => if s = "http://a.com/".toList then
        some { host := "a.com".toList, tld := "a.com".toList } else none)
      (fun _ => none)
      { host := "bank.xom".toList, tld := "xom".toList }
      ("http://a.com/".toList)).urlFound = true ∧
    (rspamd_html_url_is_phished
      (fun t => if t = "http://a.com/".toList then some ("http://a.com/".toList, 0) else none)
      (fun s => if s = "http://a.com/".toList then
        some { host := "a.com".toList, tld := "a.com".toList } else none)
      (fun _ => none)
      { host := "bank.xom".toList, tld := "xom".toList }
      ("http://a.com/".toList)).hrefPhished = false := by decide

/-- C1 (amended): when a URL is found at offset 0 of the whitespace-trimmed
displayed text, parses, and no token contains `xn--` (so IDN conversion is not
applied), the phished flag is set exactly when the hosts differ
case-insensitively, the TLDs differ case-insensitively, and the byte-level
`rspamd_url_is_subdomain` check on the TLDs fails; on flagging, the displayed
URL is tagged with the href TLD and marked HTML-displayed. A byte-exact proper
dot-bounded suffix (in either direction, with no trailing dot) always passes
the `rspamd_url_is_subdomain` check, so such pairs are never flagged. -/
theorem C1_phishing_characterization
    (urlFind : List Char → Option (List Char × Nat))
    (urlParse : List Char → Option UrlParts) (idn : List Char → Option (List Char))
    (href : UrlParts) (url_text url_str : List Char) (textU : UrlParts)
    (hlen : 4 < (url_text.dropWhile (fun c => g_ascii_isspace c)).length)
    (hfind : urlFind (url_text.dropWhile (fun c => g_ascii_isspace c))
      = some (url_str, 0))
    (hparse : urlParse url_str = some textU)
    (hx1 : hasXn textU.host = false) (hx2 : hasXn href.host = false)
    (hx3 : hasXn textU.tld = false) (hx4 : hasXn href.tld = false) :
    (rspamd_html_url_is_phished urlFind urlParse idn href url_text).urlFound = true ∧
    ((rspamd_html_url_is_phished urlFind urlParse idn href url_text).hrefPhished = true ↔
      (ascii_caseq textU.host href.host = false ∧
        ascii_caseq textU.tld href.tld = false ∧
        rspamd_url_is_subdomain textU.tld href.tld = false)) ∧
    ((rspamd_html_url_is_phished urlFind urlParse idn href url_text).hrefPhished = true →
      (rspamd_html_url_is_phished urlFind urlParse idn href url_text).phishedTldTag
        = some href.tld ∧
      (rspamd_html_url_is_phished urlFind urlParse idn href url_text).htmlDisplayed
        = true) ∧
    (∀ pre t2, pre ≠ [] → t2 ≠ [] → t2.getD (t2.length - 1) ' ' ≠ '.' →
      rspamd_url_is_subdomain (pre ++ '.' :: t2) t2 = true ∧
      rspamd_url_is_subdomain t2 (pre ++ '.' :: t2) = true) := by
  have hred : rspamd_html_url_is_phished urlFind urlParse idn href url_text =
      (if ascii_caseq textU.host href.host = false then
        (if ascii_caseq textU.tld href.tld = false then
          (if rspamd_url_is_subdomain textU.tld href.tld = false then
            { urlFound := true, textUrl := some textU, hrefPhished := true,
              phishedTldTag := some href.tld, htmlDisplayed := true }
          else
            { urlFound := true, textUrl := some textU, hrefPhished := false,
              phishedTldTag := none, htmlDisplayed := false })
        else
          { urlFound := true, textUrl := some textU, hrefPhished := false,
            phishedTldTag := none, htmlDisplayed := false })
      else
        { urlFound := true, textUrl := some textU, hrefPhished := false,
          phishedTldTag := none, htmlDisplayed := false }) := by
    unfold rspamd_html_url_is_phished
    simp only [hlen, if_true, hfind, hparse, hx1, hx2, hx3, hx4, idnConv,
      Bool.false_eq_true, if_false, lt_self_iff_false, false_and]
  refine ⟨?_, ?_, ?_, ?_⟩
  · rw [hred]
    by_cases h1 : ascii_caseq textU.host href.host = false
    · rw [if_pos h1]
      by_cases h2 : ascii_caseq textU.tld href.tld = false
      · rw [if_pos h2]
        by_cases h3 : rspamd_url_is_subdomain textU.tld href.tld = false
        · rw [if_pos h3]
        · rw [if_neg h3]
      · rw [if_neg h2]
    · rw [if_neg h1]
  · rw [hred]
    by_cases h1 : ascii_caseq textU.host href.host = false
    · rw [if_pos h1]
      by_cases h2 : ascii_caseq textU.tld href.tld = false
      · rw [if_pos h2]
        by_cases h3 : rspamd_url_is_subdomain textU.tld href.tld = false
        · rw [if_pos h3]; simp [h1, h2, h3]
        · rw [if_neg h3]; simp [h3]
      · rw [if_neg h2]; simp [h2]
    · rw [if_neg h1]; simp [h1]
  · rw [hred]
    by_cases h1 : ascii_caseq textU.host href.host = false
    · rw [if_pos h1]
      by_cases h2 : ascii_caseq textU.tld href.tld = false
      · rw [if_pos h2]
        by_cases h3 : rspamd_url_is_subdomain textU.tld href.tld = false
        · rw [if_pos h3]; exact fun _ => ⟨rfl, rfl⟩
        · rw [if_neg h3]; intro h; exact absurd h (by simp)
      · rw [if_neg h2]; intro h; exact absurd h (by simp)
    · rw [if_neg h1]; intro h; exact absurd h (by simp)
  · intro pre t2 hpre ht2 hlast
    exact ⟨is_subdomain_of_dot_suffix pre t2 hpre ht2 hlast,
      is_subdomain_of_dot_suffix_mirror pre t2 hpre ht2 hlast⟩

/-- Witness for `C1_phishing_characterization`: a mismatched pair is flagged. -/
theorem C1_phishing_characterization_witness :
    (rspamd_html_url_is_phished
      (fun t => if t = "http://evil.net/".toList then
        some ("http://evil.net/".toList, 0) else none)
      (fun s => if s = "http://evil.net/".toList then
        some { host := "evil.net".toList, tld := "net".toList } else none)
      (fun _ => none)
      { host := "good.com".toList, tld := "com".toList }
      ("http://evil.net/".toList)).hrefPhished = true :=
  ((C1_phishing_characterization
      (fun t => if t = "http://evil.net/".toList then
        some ("http://evil.net/".toList, 0) else none)
      (fun s => if s = "http://evil.net/".toList then
        some { host := "evil.net".toList, tld := "net".toList } else none)
      (fun _ => none)
      { host := "good.com".toList, tld := "com".toList }
      ("http://evil.net/".toList) ("http://evil.net/".toList)
      { host := "evil.net".toList, tld := "net".toList }
      (by decide) (by decide) (by decide) (by decide) (by decide) (by decide)
      (by decide)).2.1).mpr ⟨by decide, by decide, by decide⟩

/-- Field bookkeeping of the root-creation step. -/
lemma rootInit_fields (st : PTState) :
    (rootInit st).totalTags = st.totalTags ∧
    (rootInit st).tooManyTags = st.tooManyTags ∧
    (rootInit st).unbalanced = st.unbalanced ∧
    (rootInit st).tags = st.tags ∧
    st.nodes.length ≤ (rootInit st).nodes.length ∧
    (rootInit st).nodes.length ≤ st.nodes.length + 1 := by
  unfold rootInit
  split <;> simp_all

lemma flagCap_fields (st : PTState) :
    (flagCap st).totalTags = st.totalTags ∧
    (flagCap st).unbalanced = st.unbalanced ∧
    (flagCap st).tags = st.tags ∧
    (flagCap st).nodes = st.nodes ∧
    (flagCap st).curLevel = st.curLevel ∧
    (flagCap st).tooManyTags = (st.tooManyTags || decide (st.totalTags > max_tags)) := by
  unfold flagCap
  split <;> simp_all

lemma commonCreate_shape (st : PTState) (cl : Nat) (tag : InputTag) (f : TagFlags) :
    (commonCreate st cl tag f).tooManyTags = st.tooManyTags ∧
    (commonCreate st cl tag f).unbalanced = st.unbalanced ∧
    (((commonCreate st cl tag f).totalTags = st.totalTags ∧
        (commonCreate st cl tag f).nodes.length = st.nodes.length) ∨
      (st.totalTags < max_tags ∧
        (commonCreate st cl tag f).totalTags = st.totalTags + 1 ∧
        (commonCreate st cl tag f).nodes.length = st.nodes.length + 1)) := by
  unfold commonCreate setTagIgnored
  repeat' split
  all_goals simp_all

lemma closingApply_shape (st : PTState) (tags1 : List HtmlTag)
    (nodes1 : List GNodeRec) (res : Option (Nat × Option Nat)) :
    (closingApply st tags1 nodes1 res).tooManyTags = st.tooManyTags ∧
    (closingApply st tags1 nodes1 res).totalTags = st.totalTags + 1 ∧
    (closingApply st tags1 nodes1 res).nodes.length = nodes1.length := by
  cases res <;> simp [closingApply]

lemma closingPath_shape (st : PTState) (cl : Nat) (tag : InputTag) :
    (closingPath st cl tag).tooManyTags = st.tooManyTags ∧
    (((closingPath st cl tag).totalTags = st.totalTags ∧
        (closingPath st cl tag).nodes.length = st.nodes.length) ∨
      (st.totalTags < max_tags ∧
        (closingPath st cl tag).totalTags = st.totalTags + 1 ∧
        (closingPath st cl tag).nodes.length = st.nodes.length + 1)) := by
  unfold closingPath
  split
  · split
    · refine ⟨(closingApply_shape _ _ _ _).1,
        Or.inr ⟨by assumption, (closingApply_shape _ _ _ _).2.1, ?_⟩⟩
      rw [(closingApply_shape _ _ _ _).2.2]
      simp
    · exact ⟨rfl, Or.inr ⟨by assumption, rfl, by simp⟩⟩
  · exact ⟨rfl, Or.inl ⟨rfl, rfl⟩⟩

lemma openPath_shape (st : PTState) (cl : Nat) (tag : InputTag) :
    (openPath st cl tag).tooManyTags = st.tooManyTags ∧
    (((openPath st cl tag).totalTags = st.totalTags ∧
        (openPath st cl tag).nodes.length = st.nodes.length) ∨
      (st.totalTags < max_tags ∧
        (openPath st cl tag).totalTags = st.totalTags + 1 ∧
        (openPath st cl tag).nodes.length = st.nodes.length + 1)) := by
  unfold openPath
  split
  · rename_i x pidx heq
    dsimp only
    split_ifs <;>
      first
        | exact ⟨rfl, Or.inr ⟨by assumption, rfl, by simp⟩⟩
        | exact ⟨rfl, Or.inl ⟨rfl, rfl⟩⟩
        | (have h := commonCreate_shape
            { st with tags := addContentLength st.tags pidx tag.contentLength } cl tag
            { tag.flags with flIgnore := true }
           exact ⟨by simpa using h.1, by simpa using h.2.2⟩)
        | (have h := commonCreate_shape
            { st with tags := addContentLength st.tags pidx tag.contentLength } cl tag
            tag.flags
           exact ⟨by simpa using h.1, by simpa using h.2.2⟩)
  · have h := commonCreate_shape st cl tag tag.flags
    exact ⟨by simpa using h.1, by simpa using h.2.2⟩

lemma step_unknown (st : PTState) (t : InputTag) (ht : t.id = -1) :
    (rspamd_html_process_tag st t).totalTags = st.totalTags + 1 ∧
    (rspamd_html_process_tag st t).tooManyTags
      = (st.tooManyTags || decide (st.totalTags > max_tags)) := by
  have hr := rootInit_fields st
  have hf := flagCap_fields (rootInit st)
  unfold rspamd_html_process_tag
  dsimp only
  rw [if_pos ht]
  constructor
  · show (flagCap (rootInit st)).totalTags + 1 = st.totalTags + 1
    rw [hf.1, hr.1]
  · show (flagCap (rootInit st)).tooManyTags = _
    rw [hf.2.2.2.2.2, hr.1, hr.2.1]

lemma step_shape (st : PTState) (t : InputTag) :
    (rspamd_html_process_tag st t).tooManyTags
      = (st.tooManyTags || decide (st.totalTags > max_tags)) ∧
    (((rspamd_html_process_tag st t).totalTags = st.totalTags ∧
        (rspamd_html_process_tag st t).nodes.length = (rootInit st).nodes.length) ∨
      (st.totalTags < max_tags ∧
        (rspamd_html_process_tag st t).totalTags = st.totalTags + 1 ∧
        (rspamd_html_process_tag st t).nodes.length = (rootInit st).nodes.length + 1) ∨
      (t.id = -1 ∧ (rspamd_html_process_tag st t).totalTags = st.totalTags + 1 ∧
        (rspamd_html_process_tag st t).nodes.length = (rootInit st).nodes.length)) := by
  have hr := rootInit_fields st
  have hf := flagCap_fields (rootInit st)
  unfold rspamd_html_process_tag
  dsimp only
  split
  · -- unknown tag
    refine ⟨?_, Or.inr (Or.inr ⟨by assumption, ?_, ?_⟩)⟩
    · show (flagCap (rootInit st)).tooManyTags = _
      rw [hf.2.2.2.2.2, hr.1, hr.2.1]
    · show (flagCap (rootInit st)).totalTags + 1 = st.totalTags + 1
      rw [hf.1, hr.1]
    · show (flagCap (rootInit st)).nodes.length = (rootInit st).nodes.length
      rw [hf.2.2.2.1]
  · split
    · -- curLevel none: state unchanged
      refine ⟨?_, Or.inl ⟨?_, ?_⟩⟩
      · rw [hf.2.2.2.2.2, hr.1, hr.2.1]
      · rw [hf.1, hr.1]
      · rw [hf.2.2.2.1]
    · rename_i cl hcl
      split
      · split
        · -- closing path
          have h := closingPath_shape (flagCap (rootInit st)) cl t
          rw [hf.1, hf.2.2.2.2.2, hr.1, hr.2.1] at h
          refine ⟨h.1, ?_⟩
          rcases h.2 with ⟨h1, h2⟩ | ⟨h0, h1, h2⟩
          · exact Or.inl ⟨h1, by rw [h2, hf.2.2.2.1]⟩
          · exact Or.inr (Or.inl ⟨h0, h1, by rw [h2, hf.2.2.2.1]⟩)
        · -- open path
          have h := openPath_shape (flagCap (rootInit st)) cl t
          rw [hf.1, hf.2.2.2.2.2, hr.1, hr.2.1] at h
          refine ⟨h.1, ?_⟩
          rcases h.2 with ⟨h1, h2⟩ | ⟨h0, h1, h2⟩
          · exact Or.inl ⟨h1, by rw [h2, hf.2.2.2.1]⟩
          · exact Or.inr (Or.inl ⟨h0, h1, by rw [h2, hf.2.2.2.1]⟩)
      · -- inline: state unchanged
        refine ⟨?_, Or.inl ⟨?_, ?_⟩⟩
        · rw [hf.2.2.2.2.2, hr.1, hr.2.1]
        · rw [hf.1, hr.1]
        · rw [hf.2.2.2.1]

lemma fold_known (l : List InputTag) (hl : ∀ t ∈ l, t.id ≠ -1) :
    ∀ st : PTState, st.tooManyTags = false → st.totalTags ≤ max_tags →
    (l.foldl rspamd_html_process_tag st).tooManyTags = false ∧
    (l.foldl rspamd_html_process_tag st).totalTags ≤ max_tags := by
  induction l with
  | nil => intro st h1 h2; exact ⟨h1, h2⟩
  | cons t rest ih =>
    intro st h1 h2
    have hs := step_shape st t
    have hflag : (rspamd_html_process_tag st t).tooManyTags = false := by
      rw [hs.1, h1]
      simp
      omega
    have htot : (rspamd_html_process_tag st t).totalTags ≤ max_tags := by
      rcases hs.2 with ⟨h3, -⟩ | ⟨h0, h3, -⟩ | ⟨hid, -, -⟩
      · omega
      · omega
      · exact absurd hid (hl t (List.mem_cons_self t rest))
    exact ih (fun x hx => hl x (List.mem_cons_of_mem t hx))
      (rspamd_html_process_tag st t) hflag htot

lemma fold_nodes (l : List InputTag) :
    ∀ st : PTState,
    st.nodes.length ≤ max_tags + 1 →
    (st.totalTags < max_tags → st.nodes.length ≤ st.totalTags + 1) →
    (l.foldl rspamd_html_process_tag st).nodes.length ≤ max_tags + 1 ∧
    ((l.foldl rspamd_html_process_tag st).totalTags < max_tags →
      (l.foldl rspamd_html_process_tag st).nodes.length
        ≤ (l.foldl rspamd_html_process_tag st).totalTags + 1) := by
  induction l with
  | nil => intro st h1 h2; exact ⟨h1, h2⟩
  | cons t rest ih =>
    intro st h1 h2
    have hs := (step_shape st t).2
    have hrootle : st.totalTags < max_tags → (rootInit st).nodes.length ≤ st.totalTags + 1 := by
      intro hlt
      unfold rootInit
      split
      · simp
      · exact h2 hlt
    have hrootmax : (rootInit st).nodes.length ≤ max_tags + 1 := by
      unfold rootInit
      split
      · simp [max_tags]
      · exact h1
    refine ih (rspamd_html_process_tag st t) ?_ ?_
    · rcases hs with ⟨-, h4⟩ | ⟨h0, -, h4⟩ | ⟨-, -, h4⟩
      · rw [h4]; exact hrootmax
      · rw [h4]
        have := hrootle h0
        omega
      · rw [h4]; exact hrootmax
    · intro hlt2
      rcases hs with ⟨h3, h4⟩ | ⟨h0, h3, h4⟩ | ⟨-, h3, h4⟩
      · rw [h3] at hlt2
        rw [h4, h3]
        exact hrootle hlt2
      · rw [h3] at hlt2
        rw [h4, h3]
        have := hrootle h0
        omega
      · rw [h3] at hlt2
        rw [h4, h3]
        have := hrootle (by omega)
        omega

lemma fold_unknown (l : List InputTag) (hl : ∀ t ∈ l, t.id = -1) :
    ∀ st : PTState,
    st.tooManyTags = decide (st.totalTags > max_tags + 1) →
    (l.foldl rspamd_html_process_tag st).totalTags = st.totalTags + l.length ∧
    (l.foldl rspamd_html_process_tag st).tooManyTags
      = decide (st.totalTags + l.length > max_tags + 1) := by
  induction l with
  | nil => intro st h1; exact ⟨by simp, by simpa using h1⟩
  | cons t rest ih =>
    intro st h1
    have hs := step_unknown st t (hl t (List.mem_cons_self t rest))
    have hflag : (rspamd_html_process_tag st t).tooManyTags
        = decide ((rspamd_html_process_tag st t).totalTags > max_tags + 1) := by
      rw [hs.2, hs.1, h1]
      by_cases hk : st.totalTags > max_tags
      · have : st.totalTags + 1 > max_tags + 1 := by omega
        simp [hk, this]
      · have h5 : ¬ st.totalTags > max_tags + 1 := by omega
        have h6 : ¬ st.totalTags + 1 > max_tags + 1 := by omega
        simp [hk, h5, h6]
    have := ih (fun x hx => hl x (List.mem_cons_of_mem t hx))
      (rspamd_html_process_tag st t) hflag
    rw [hs.1] at this
    refine ⟨?_, ?_⟩
    · simp only [List.foldl_cons]
      rw [this.1]
      simp
      omega
    · simp only [List.foldl_cons]
      rw [this.2]
      congr 1
      simp
      omega

set_option maxRecDepth 40000 in
/-- C4 counterexample: 8193 known block tags (more than 8192 tag occurrences)
leave the too-many-tags flag unset, because known tags only advance the
counter under the `total_tags < max_tags` guard, so the counter saturates at
8192 and the pre-increment check `total_tags > max_tags` never fires. -/
theorem C4_counterexample_known_tags_no_flag :
    (⟨"div", 25, { flBlock := true }⟩ : html_tag_def) ∈ tag_defs ∧
    (List.replicate 8193 (openTag ⟨"div", 25, { flBlock := true }⟩)).length > 8192 ∧
    (rspamd_html_process_tags
      (List.replicate 8193 (openTag ⟨"div", 25, { flBlock := true }⟩))).tooManyTags
      = false := by
  refine ⟨by decide, ?_, ?_⟩
  · rw [List.length_replicate]
    omega
  · exact (fold_known _ (by
      intro t ht
      rw [List.eq_of_mem_replicate ht]
      decide) {} rfl (Nat.zero_le _)).1

/-- C4 (amended): the tag tree never exceeds 8192 created nodes plus the
root; but the too-many-tags flag is reachable only through unknown tags:
with only known tags it is never set regardless of input size, while a stream
of unknown tags sets it exactly when the input has more than 8193 of them. -/
theorem C4_tag_cap :
    (∀ l : List InputTag, (rspamd_html_process_tags l).nodes.length ≤ max_tags + 1) ∧
    (∀ l : List InputTag, (∀ t ∈ l, t.id ≠ -1) →
      (rspamd_html_process_tags l).tooManyTags = false) ∧
    (∀ l : List InputTag, (∀ t ∈ l, t.id = -1) →
      (rspamd_html_process_tags l).tooManyTags = decide (l.length > max_tags + 1)) := by
  refine ⟨?_, ?_, ?_⟩
  · intro l
    exact (fold_nodes l {} (Nat.zero_le _) (fun _ => Nat.zero_le _)).1
  · intro l hl
    exact (fold_known l hl {} rfl (Nat.zero_le _)).1
  · intro l hl
    have h := (fold_unknown l hl {} (by decide)).2
    simpa using h

/-- Witness for `C4_tag_cap` at concrete inputs. -/
theorem C4_tag_cap_witness :
    (rspamd_html_process_tags [openTag ⟨"div", 25, { flBlock := true }⟩]).nodes.length
      ≤ max_tags + 1 ∧
    (rspamd_html_process_tags [openTag ⟨"div", 25, { flBlock := true }⟩]).tooManyTags
      = false ∧
    (rspamd_html_process_tags
      [(⟨-1, {}, 0⟩ : InputTag), (⟨-1, {}, 0⟩ : InputTag)]).tooManyTags
      = decide (([(⟨-1, {}, 0⟩ : InputTag), (⟨-1, {}, 0⟩ : InputTag)]).length
          > max_tags + 1) :=
  ⟨C4_tag_cap.1 _, C4_tag_cap.2.1 _ (by decide), C4_tag_cap.2.2 _ (by decide)⟩


lemma getD_set_of_ne {α : Type} (l : List α) (i j : Nat) (x d : α) (h : i ≠ j) :
    (l.set i x).getD j d = l.getD j d := by
  simp [List.getD_eq_getElem?_getD, List.getElem?_set_ne h]

lemma getD_set_self_of_lt {α : Type} (l : List α) (i : Nat) (x d : α)
    (h : i < l.length) : (l.set i x).getD i d = x := by
  simp [List.getD_eq_getElem?_getD, List.getElem?_set_eq_of_lt x h]

lemma getD_append_lt {α : Type} (A B : List α) (i : Nat) (d : α)
    (h : i < A.length) : (A ++ B).getD i d = A.getD i d := by
  simp [List.getD_eq_getElem?_getD, List.getElem?_append_left h]

lemma getD_append_self_len {α : Type} (A : List α) (x d : α) :
    (A ++ [x]).getD A.length d = x := by
  simp [List.getD_eq_getElem?_getD, List.getElem?_append_right (le_refl A.length)]

lemma set_append_self {α : Type} (A : List α) (x y : α) :
    (A ++ [x]).set A.length y = A ++ [y] := by
  induction A with
  | nil => rfl
  | cons a A ih => simp [List.set, ih]

lemma rootInit_of_nonempty (st : PTState) (h : 0 < st.nodes.length) :
    rootInit st = st := by
  unfold rootInit
  rw [if_neg]
  intro hc
  rw [List.isEmpty_iff] at hc
  rw [hc] at h
  simp at h

lemma flagCap_of_le (st : PTState) (h : st.totalTags ≤ max_tags) :
    flagCap st = st := by
  unfold flagCap
  rw [if_neg]
  omega

-- C6 step lemmas

lemma step_inline (st : PTState) (t : InputTag) (cl : Nat)
    (hcl : st.curLevel = some cl) (hlt : cl < st.nodes.length)
    (hcap : st.totalTags ≤ max_tags) (hid : t.id ≠ -1)
    (hinl : t.flags.cmInline = true) :
    rspamd_html_process_tag st t = st := by
  have h1 := rootInit_of_nonempty st (by omega)
  have h2 := flagCap_of_le st hcap
  unfold rspamd_html_process_tag
  dsimp only
  rw [h1, h2, if_neg hid, hcl]
  dsimp only
  rw [if_neg]
  simp [hinl]

lemma step_selfClosed (st : PTState) (t : InputTag) (cl : Nat)
    (hcl : st.curLevel = some cl) (hlt : cl < st.nodes.length)
    (hcap : st.totalTags < max_tags) (hid : t.id ≠ -1)
    (hninl : t.flags.cmInline = false) (hclosed : t.flags.flClosed = true)
    (hnclosing : t.flags.flClosing = false) :
    rspamd_html_process_tag st t = { st with
      tags := st.tags ++ [⟨t.id, t.flags, t.contentLength, some cl⟩]
      nodes := st.nodes ++ [⟨some st.tags.length, some cl⟩]
      totalTags := st.totalTags + 1 } := by
  have h1 := rootInit_of_nonempty st (by omega)
  have h2 := flagCap_of_le st (by omega)
  unfold rspamd_html_process_tag
  dsimp only
  rw [h1, h2, if_neg hid, hcl]
  dsimp only
  rw [if_pos hninl, if_pos (by simp [hclosed])]
  unfold closingPath
  rw [if_pos hcap]
  dsimp only
  rw [if_neg (by simp [hnclosing]), hcl]

lemma step_open_rootLevel (st : PTState) (t : InputTag) (cl : Nat)
    (hcl : st.curLevel = some cl) (hlt : cl < st.nodes.length)
    (hcap : st.totalTags < max_tags) (hid : t.id ≠ -1)
    (hninl : t.flags.cmInline = false) (hncl : t.flags.flClosing = false)
    (hncd : t.flags.flClosed = false)
    (hdata : (st.nodes.getD cl dummyNode).data = none) :
    ∃ f' : TagFlags, f'.flBlock = t.flags.flBlock ∧ f'.flClosing = false ∧
      f'.flClosed = false ∧
      rspamd_html_process_tag st t = { st with
        tags := st.tags ++ [⟨t.id, f', t.contentLength, some cl⟩]
        nodes := st.nodes ++ [⟨some st.tags.length, some cl⟩]
        curLevel := some st.nodes.length
        totalTags := st.totalTags + 1 } := by
  have h1 := rootInit_of_nonempty st (by omega)
  have h2 := flagCap_of_le st (by omega)
  have hstep : rspamd_html_process_tag st t = commonCreate st cl t t.flags := by
    unfold rspamd_html_process_tag
    dsimp only
    rw [h1, h2, if_neg hid, hcl]
    dsimp only
    rw [if_pos hninl, if_neg (by simp [hncl, hncd])]
    unfold openPath
    rw [hdata]
  by_cases hhead : (t.flags.cmHead || t.flags.cmUnknown || t.flags.flIgnore) = true
  · refine ⟨{ t.flags with flIgnore := true }, by simp, by simp [hncl], by simp [hncd], ?_⟩
    rw [hstep]
    unfold commonCreate
    rw [if_pos hcap]
    dsimp only
    rw [if_pos hhead, if_neg (by simp [hncd])]
    unfold setTagIgnored
    dsimp only
    rw [getD_append_self_len, set_append_self]
  · refine ⟨t.flags, rfl, hncl, hncd, ?_⟩
    rw [hstep]
    unfold commonCreate
    rw [if_pos hcap]
    dsimp only
    rw [if_neg hhead, if_neg (by simp [hncd])]

lemma step_close (st : PTState) (t : InputTag) (cl tidx0 : Nat)
    (hcl : st.curLevel = some cl) (hlt : cl < st.nodes.length)
    (hcap : st.totalTags < max_tags) (hid : t.id ≠ -1)
    (hninl : t.flags.cmInline = false) (hclosing : t.flags.flClosing = true)
    (hdata : (st.nodes.getD cl dummyNode).data = some tidx0)
    (htidx : tidx0 < st.tags.length)
    (hmatch : (st.tags.getD tidx0 dummyTag).id = t.id)
    (hunclosed : (st.tags.getD tidx0 dummyTag).flags.flClosed = false) :
    rspamd_html_process_tag st t = { st with
      tags := setTagClosed (st.tags ++ [⟨t.id, t.flags, t.contentLength, some cl⟩]) tidx0
      nodes := st.nodes ++ [⟨some st.tags.length, some cl⟩]
      curLevel := (st.nodes.getD cl dummyNode).parent
      totalTags := st.totalTags + 1 } := by
  have h1 := rootInit_of_nonempty st (by omega)
  have h2 := flagCap_of_le st (by omega)
  have hwalk : balanceWalk
      (st.tags ++ [(⟨t.id, t.flags, t.contentLength, some cl⟩ : HtmlTag)])
      (st.nodes ++ [(⟨some st.tags.length, some cl⟩ : GNodeRec)]) t.id
      (st.nodes ++ [(⟨some st.tags.length, some cl⟩ : GNodeRec)]).length (some cl)
      = some (tidx0, (st.nodes.getD cl dummyNode).parent) := by
    have hlen : (st.nodes ++ [(⟨some st.tags.length, some cl⟩ : GNodeRec)]).length
        = st.nodes.length + 1 := by simp
    rw [hlen]
    unfold balanceWalk
    dsimp only
    rw [getD_append_lt _ _ _ _ hlt, hdata]
    dsimp only
    rw [getD_append_lt _ _ _ _ htidx]
    rw [if_pos ⟨hmatch, hunclosed⟩]
  unfold rspamd_html_process_tag
  dsimp only
  rw [h1, h2, if_neg hid, hcl]
  dsimp only
  rw [if_pos hninl, if_pos (by simp [hclosing])]
  unfold closingPath
  rw [if_pos hcap]
  dsimp only
  rw [if_pos hclosing, hwalk]
  unfold closingApply
  rfl

lemma step_open_child (st : PTState) (t : InputTag) (cl pidx : Nat)
    (hcl : st.curLevel = some cl) (hlt : cl < st.nodes.length)
    (hcap : st.totalTags < max_tags) (hid : t.id ≠ -1)
    (hninl : t.flags.cmInline = false) (hncl : t.flags.flClosing = false)
    (hncd : t.flags.flClosed = false)
    (hdata : (st.nodes.getD cl dummyNode).data = some pidx)
    (hpidx : pidx < st.tags.length)
    (hnomatch : ¬ ((st.tags.getD pidx dummyTag).flags.flBlock = false ∧
        (st.tags.getD pidx dummyTag).id = t.id)) :
    ∃ (tagsB : List HtmlTag) (f' : TagFlags),
      tagsB.length = st.tags.length ∧
      (∀ i, (tagsB.getD i dummyTag).id = (st.tags.getD i dummyTag).id ∧
        (tagsB.getD i dummyTag).flags = (st.tags.getD i dummyTag).flags ∧
        (tagsB.getD i dummyTag).parentNode = (st.tags.getD i dummyTag).parentNode) ∧
      f'.flBlock = t.flags.flBlock ∧ f'.flClosing = false ∧ f'.flClosed = false ∧
      rspamd_html_process_tag st t = { st with
        tags := tagsB ++ [⟨t.id, f', t.contentLength, some cl⟩]
        nodes := st.nodes ++ [⟨some st.tags.length, some cl⟩]
        curLevel := some st.nodes.length
        totalTags := st.totalTags + 1 } := by
  have h1 := rootInit_of_nonempty st (by omega)
  have h2 := flagCap_of_le st (by omega)
  have hlenB : (addContentLength st.tags pidx t.contentLength).length
      = st.tags.length := by
    simp [addContentLength]
  have hprops : ∀ i,
      ((addContentLength st.tags pidx t.contentLength).getD i dummyTag).id
        = (st.tags.getD i dummyTag).id ∧
      ((addContentLength st.tags pidx t.contentLength).getD i dummyTag).flags
        = (st.tags.getD i dummyTag).flags ∧
      ((addContentLength st.tags pidx t.contentLength).getD i dummyTag).parentNode
        = (st.tags.getD i dummyTag).parentNode := by
    intro i
    unfold addContentLength
    dsimp only
    by_cases hi : i = pidx
    · subst hi
      rw [getD_set_self_of_lt _ _ _ _ hpidx]
      exact ⟨rfl, rfl, rfl⟩
    · rw [getD_set_of_ne _ _ _ _ _ (fun h => hi h.symm)]
      exact ⟨rfl, rfl, rfl⟩
  have hbad : ¬ ((if (st.tags.getD pidx dummyTag).flags.flIgnore = true then
        { t.flags with flIgnore := true } else t.flags).flClosed = false ∧
      (st.tags.getD pidx dummyTag).flags.flBlock = false ∧
      (st.tags.getD pidx dummyTag).id = t.id) := by
    rintro ⟨-, hb2, hb3⟩
    exact hnomatch ⟨hb2, hb3⟩
  have hstep : rspamd_html_process_tag st t
      = commonCreate { st with tags := addContentLength st.tags pidx t.contentLength }
        cl t (if (st.tags.getD pidx dummyTag).flags.flIgnore = true then
          { t.flags with flIgnore := true } else t.flags) := by
    unfold rspamd_html_process_tag
    dsimp only
    rw [h1, h2, if_neg hid, hcl]
    dsimp only
    rw [if_pos hninl, if_neg (by simp [hncl, hncd])]
    unfold openPath
    rw [hdata]
    dsimp only
    rw [if_neg hbad, hcl]
  by_cases hign : (st.tags.getD pidx dummyTag).flags.flIgnore = true
  · refine ⟨addContentLength st.tags pidx t.contentLength,
      { t.flags with flIgnore := true }, hlenB, hprops, by simp, by simp [hncl],
      by simp [hncd], ?_⟩
    rw [hstep, if_pos hign]
    unfold commonCreate
    rw [if_pos (by simpa using hcap)]
    dsimp only
    rw [if_pos (by simp), if_neg (by simp [hncd])]
    unfold setTagIgnored
    dsimp only
    rw [getD_append_self_len, set_append_self, hlenB]
  · rw [hstep, if_neg hign]
    by_cases hhead : (t.flags.cmHead || t.flags.cmUnknown || t.flags.flIgnore) = true
    · refine ⟨addContentLength st.tags pidx t.contentLength,
        { t.flags with flIgnore := true }, hlenB, hprops, by simp, by simp [hncl],
        by simp [hncd], ?_⟩
      unfold commonCreate
      rw [if_pos (by simpa using hcap)]
      dsimp only
      rw [if_pos hhead, if_neg (by simp [hncd])]
      unfold setTagIgnored
      dsimp only
      rw [getD_append_self_len, set_append_self, hlenB]
    · refine ⟨addContentLength st.tags pidx t.contentLength, t.flags, hlenB, hprops,
        rfl, hncl, hncd, ?_⟩
      unfold commonCreate
      rw [if_pos (by simpa using hcap)]
      dsimp only
      rw [if_neg hhead, if_neg (by simp [hncd]), hlenB]

lemma runsClean_refl (st : PTState) (n : Nat) : runsClean st st n :=
  ⟨rfl, rfl, rfl, ⟨[], by simp⟩, le_refl _, fun i _ => ⟨rfl, rfl, rfl⟩,
    by omega, fun i h1 h2 => absurd h2 (by omega)⟩

lemma runsClean_trans (st1 st2 st3 : PTState) (n1 n2 : Nat)
    (h1 : runsClean st1 st2 n1) (h2 : runsClean st2 st3 n2) :
    runsClean st1 st3 (n1 + n2) := by
  obtain ⟨a1, b1, c1, ⟨d1, hd1⟩, e1, f1, g1, k1⟩ := h1
  obtain ⟨a2, b2, c2, ⟨d2, hd2⟩, e2, f2, g2, k2⟩ := h2
  refine ⟨a2.trans a1, b2.trans b1, c2.trans c1, ⟨d1 ++ d2, by rw [hd2, hd1]; simp⟩,
    le_trans e1 e2, ?_, by omega, ?_⟩
  · intro i hi
    have p2 := f2 i (by omega)
    have p1 := f1 i hi
    exact ⟨p2.1.trans p1.1, p2.2.1.trans p1.2.1, p2.2.2.trans p1.2.2⟩
  · intro i hi1 hi2
    by_cases hmid : i < st2.tags.length
    · have p2 := f2 i hmid
      rcases k1 i hi1 hmid with hcase | hcase
      · exact Or.inl (by rw [p2.2.1, hcase])
      · exact Or.inr (by rw [p2.2.1, hcase])
    · exact k2 i (by omega) hi2

lemma runsClean_mono (st st2 : PTState) (n m : Nat) (h : runsClean st st2 n)
    (hnm : n ≤ m) : runsClean st st2 m := by
  obtain ⟨a, b, c, d, e, f, g, k⟩ := h
  exact ⟨a, b, c, d, e, f, by omega, k⟩

lemma ambObs_transport (st st2 : PTState) (cl : Nat) (amb : Option (Int × Bool))
    (hamb : ambObs st cl amb)
    (hnodes : ∃ d, st2.nodes = st.nodes ++ d) (hcl : cl < st.nodes.length)
    (hlen : st.tags.length ≤ st2.tags.length)
    (hpres : ∀ i, i < st.tags.length →
      (st2.tags.getD i dummyTag).id = (st.tags.getD i dummyTag).id ∧
      (st2.tags.getD i dummyTag).flags = (st.tags.getD i dummyTag).flags ∧
      (st2.tags.getD i dummyTag).parentNode = (st.tags.getD i dummyTag).parentNode) :
    ambObs st2 cl amb := by
  obtain ⟨d, hd⟩ := hnodes
  cases amb with
  | none =>
    unfold ambObs at hamb ⊢
    rw [hd, getD_append_lt _ _ _ _ hcl]
    exact hamb
  | some a =>
    obtain ⟨tidx, h1, h2, h3, h4⟩ := hamb
    refine ⟨tidx, ?_, by omega, ?_, ?_⟩
    · rw [hd, getD_append_lt _ _ _ _ hcl]
      exact h1
    · rw [(hpres tidx h2).1]
      exact h3
    · rw [(hpres tidx h2).2.1]
      exact h4

lemma nested_run {amb : Option (Int × Bool)} {l : List InputTag}
    (h : NestedSeq amb l) :
    ∀ st cl, st.curLevel = some cl → cl < st.nodes.length → ambObs st cl amb →
    st.totalTags + l.length ≤ max_tags →
    runsClean st (l.foldl rspamd_html_process_tag st) l.length := by
  induction h with
  | nil amb =>
    intro st _ _ _ _ _
    exact runsClean_refl st 0
  | inl amb t rest hinl hid hrest ih =>
    intro st cl hcl hlt hamb hbound
    rw [List.length_cons] at hbound
    have hstep := step_inline st t cl hcl hlt (by omega) hid hinl
    simp only [List.foldl_cons, hstep]
    have h2 := ih st cl hcl hlt hamb (by omega)
    exact runsClean_mono _ _ _ _ h2 (by rw [List.length_cons]; omega)
  | selfc amb t rest hninl hclosed hnclosing hid hrest ih =>
    intro st cl hcl hlt hamb hbound
    rw [List.length_cons] at hbound
    have hstep := step_selfClosed st t cl hcl hlt (by omega) hid hninl hclosed hnclosing
    simp only [List.foldl_cons, hstep]
    have h1 : runsClean st { st with
        tags := st.tags ++ [⟨t.id, t.flags, t.contentLength, some cl⟩]
        nodes := st.nodes ++ [⟨some st.tags.length, some cl⟩]
        totalTags := st.totalTags + 1 } 1 := by
      refine ⟨rfl, rfl, rfl, ⟨[⟨some st.tags.length, some cl⟩], rfl⟩, by simp, ?_,
        by simp, ?_⟩
      · intro i hi
        dsimp only
        rw [getD_append_lt _ _ _ _ hi]
        exact ⟨rfl, rfl, rfl⟩
      · intro i hi1 hi2
        dsimp only at hi2 ⊢
        rw [List.length_append, List.length_cons, List.length_nil] at hi2
        have : i = st.tags.length := by omega
        subst this
        rw [getD_append_self_len]
        exact Or.inr hclosed
    have hamb2 := ambObs_transport st _ cl amb hamb h1.2.2.2.1 hlt h1.2.2.2.2.1
      h1.2.2.2.2.2.1
    have h2 := ih _ cl (h1.2.2.1.trans hcl)
      (by dsimp only; rw [List.length_append]; omega) hamb2
      (show st.totalTags + 1 + rest.length ≤ max_tags by omega)
    exact runsClean_mono _ _ _ _ (runsClean_trans _ _ _ _ _ h1 h2)
      (by rw [List.length_cons]; omega)
  | elem amb o c inner rest hninl hncl hncd hoid hok hcninl hcclosing hcid hinner
      hrest ih_inner ih_rest =>
    intro st cl hcl hlt hamb hbound
    have hlcount : (o :: (inner ++ c :: rest)).length
        = inner.length + rest.length + 2 := by
      simp
      omega
    rw [hlcount] at hbound ⊢
    -- the opening step
    have hopen : ∃ (tagsB : List HtmlTag) (f2 : TagFlags),
        tagsB.length = st.tags.length ∧
        (∀ i, (tagsB.getD i dummyTag).id = (st.tags.getD i dummyTag).id ∧
          (tagsB.getD i dummyTag).flags = (st.tags.getD i dummyTag).flags ∧
          (tagsB.getD i dummyTag).parentNode
            = (st.tags.getD i dummyTag).parentNode) ∧
        f2.flBlock = o.flags.flBlock ∧ f2.flClosing = false ∧ f2.flClosed = false ∧
        rspamd_html_process_tag st o = { st with
          tags := tagsB ++ [⟨o.id, f2, o.contentLength, some cl⟩]
          nodes := st.nodes ++ [⟨some st.tags.length, some cl⟩]
          curLevel := some st.nodes.length
          totalTags := st.totalTags + 1 } := by
      cases amb with
      | none =>
        obtain ⟨f2, hb, hc2, hd2, he⟩ := step_open_rootLevel st o cl hcl hlt
          (by omega) hoid hninl hncl hncd hamb
        exact ⟨st.tags, f2, rfl, fun i => ⟨rfl, rfl, rfl⟩, hb, hc2, hd2, he⟩
      | some a =>
        obtain ⟨tidx, ha1, ha2, ha3, ha4⟩ := hamb
        have hnomatch : ¬ ((st.tags.getD tidx dummyTag).flags.flBlock = false ∧
            (st.tags.getD tidx dummyTag).id = o.id) := by
          rintro ⟨hb1, hb2⟩
          have hA1 : a.1 = o.id := by rw [← ha3]; exact hb2
          have hA2 := hok a rfl hA1
          rw [ha4] at hb1
          rw [hA2] at hb1
          exact Bool.true_eq_false.mp hb1
        exact step_open_child st o cl tidx hcl hlt (by omega) hoid hninl hncl hncd
          ha1 ha2 hnomatch
    obtain ⟨tagsB, f2, hlenB, hpresB, hf2b, hf2c, hf2d, hstepO⟩ := hopen
    simp only [List.foldl_cons, hstepO, List.foldl_append]
    set stO : PTState := { st with
      tags := tagsB ++ [⟨o.id, f2, o.contentLength, some cl⟩]
      nodes := st.nodes ++ [⟨some st.tags.length, some cl⟩]
      curLevel := some st.nodes.length
      totalTags := st.totalTags + 1 } with hstO
    have hstOtags : stO.tags.length = st.tags.length + 1 := by
      show (tagsB ++ _).length = _
      rw [List.length_append, hlenB]
      simp
    have hstOnodes : stO.nodes.length = st.nodes.length + 1 := by
      show (st.nodes ++ _).length = _
      simp
    have hOrec : stO.tags.getD st.tags.length dummyTag
        = ⟨o.id, f2, o.contentLength, some cl⟩ := by
      show (tagsB ++ _).getD _ _ = _
      rw [← hlenB, getD_append_self_len]
    have hOnode : stO.nodes.getD st.nodes.length dummyNode
        = ⟨some st.tags.length, some cl⟩ := by
      show (st.nodes ++ _).getD _ _ = _
      rw [getD_append_self_len]
    have hambO : ambObs stO st.nodes.length (some (o.id, o.flags.flBlock)) := by
      refine ⟨st.tags.length, ?_, by omega, ?_, ?_⟩
      · rw [hOnode]
      · rw [hOrec]
      · rw [hOrec]
        exact hf2b
    have h2 := ih_inner stO st.nodes.length rfl (by omega) hambO
      (show st.totalTags + 1 + inner.length ≤ max_tags by omega)
    obtain ⟨u2, m2, c2, ⟨d2, hd2⟩, tl2, pr2, tt2, nc2⟩ := h2
    set stI := List.foldl rspamd_html_process_tag stO inner with hstI
    have hInl : stI.nodes.length = stO.nodes.length + d2.length := by
      rw [hd2, List.length_append]
    have hclI : stI.curLevel = some st.nodes.length :=
      c2.trans (show stO.curLevel = some st.nodes.length from rfl)
    have hltI : st.nodes.length < stI.nodes.length := by omega
    have hcapI : stI.totalTags < max_tags := by
      have hOtt : stO.totalTags = st.totalTags + 1 := rfl
      omega
    have hdataI : (stI.nodes.getD st.nodes.length dummyNode).data
        = some st.tags.length := by
      rw [hd2, getD_append_lt _ _ _ _ (by omega), hOnode]
    have hparI : (stI.nodes.getD st.nodes.length dummyNode).parent = some cl := by
      rw [hd2, getD_append_lt _ _ _ _ (by omega), hOnode]
    have htidxI : st.tags.length < stI.tags.length := by omega
    have hpresOI := pr2 st.tags.length (by omega)
    have hmatchI : (stI.tags.getD st.tags.length dummyTag).id = c.id := by
      rw [hpresOI.1, hOrec, hcid]
    have hunclI : (stI.tags.getD st.tags.length dummyTag).flags.flClosed = false := by
      rw [hpresOI.2.1, hOrec]
      exact hf2d
    have hidc : c.id ≠ -1 := by
      rw [hcid]
      exact hoid
    have hstepC := step_close stI c st.nodes.length st.tags.length hclI hltI hcapI
      hidc hcninl hcclosing hdataI htidxI hmatchI hunclI
    rw [hparI] at hstepC
    simp only [List.foldl_cons, hstepC]
    set stC : PTState := { stI with
      tags := setTagClosed
        (stI.tags ++ [⟨c.id, c.flags, c.contentLength, some st.nodes.length⟩])
        st.tags.length
      nodes := stI.nodes ++ [⟨some stI.tags.length, some st.nodes.length⟩]
      curLevel := some cl
      totalTags := stI.totalTags + 1 } with hstC
    have hClen : stC.tags.length = stI.tags.length + 1 := by
      show (setTagClosed _ _).length = _
      unfold setTagClosed
      simp
    have hCnl : stC.nodes.length = stI.nodes.length + 1 := by
      show (stI.nodes ++ _).length = _
      simp
    have hpresC : ∀ i, i < st.tags.length →
        stC.tags.getD i dummyTag = stI.tags.getD i dummyTag := by
      intro i hi
      show (setTagClosed _ _).getD i _ = _
      unfold setTagClosed
      dsimp only
      rw [getD_set_of_ne _ _ _ _ _ (by omega), getD_append_lt _ _ _ _ (by omega)]
    have hpresSC : ∀ i, i < st.tags.length →
        (stC.tags.getD i dummyTag).id = (st.tags.getD i dummyTag).id ∧
        (stC.tags.getD i dummyTag).flags = (st.tags.getD i dummyTag).flags ∧
        (stC.tags.getD i dummyTag).parentNode
          = (st.tags.getD i dummyTag).parentNode := by
      intro i hi
      have e1 := hpresC i hi
      have e2 := pr2 i (by omega)
      have e3 : (stO.tags.getD i dummyTag).id = (st.tags.getD i dummyTag).id ∧
          (stO.tags.getD i dummyTag).flags = (st.tags.getD i dummyTag).flags ∧
          (stO.tags.getD i dummyTag).parentNode
            = (st.tags.getD i dummyTag).parentNode := by
        show ((tagsB ++ _).getD i dummyTag).id = _ ∧ _
        rw [getD_append_lt _ _ _ _ (by omega)]
        exact hpresB i
      refine ⟨?_, ?_, ?_⟩
      · rw [e1]
        exact e2.1.trans e3.1
      · rw [e1]
        exact e2.2.1.trans e3.2.1
      · rw [e1]
        exact e2.2.2.trans e3.2.2
    have hambC : ambObs stC cl amb := by
      refine ambObs_transport st stC cl amb hamb ?_ hlt (by omega) hpresSC
      refine ⟨[⟨some st.tags.length, some cl⟩] ++ d2
        ++ [⟨some stI.tags.length, some st.nodes.length⟩], ?_⟩
      show stI.nodes ++ _ = _
      rw [hd2]
      show (st.nodes ++ _) ++ _ ++ _ = _
      simp
    have hboundC : stC.totalTags + rest.length ≤ max_tags := by
      have hCtt : stC.totalTags = stI.totalTags + 1 := rfl
      have hOtt : stO.totalTags = st.totalTags + 1 := rfl
      omega
    have h3 := ih_rest stC cl rfl (by omega) hambC hboundC
    obtain ⟨u3, m3, c3, ⟨d3, hd3⟩, tl3, pr3, tt3, nc3⟩ := h3
    refine ⟨?_, ?_, ?_, ?_, ?_, ?_, ?_, ?_⟩
    · rw [u3]
      show stI.unbalanced = st.unbalanced
      rw [u2]
    · rw [m3]
      show stI.tooManyTags = st.tooManyTags
      rw [m2]
    · rw [c3]
      show some cl = st.curLevel
      rw [hcl]
    · refine ⟨[⟨some st.tags.length, some cl⟩] ++ d2
        ++ [⟨some stI.tags.length, some st.nodes.length⟩] ++ d3, ?_⟩
      rw [hd3]
      show (stI.nodes ++ _) ++ _ = _
      rw [hd2]
      show ((st.nodes ++ _) ++ _) ++ _ ++ _ = _
      simp
    · omega
    · intro i hi
      have p3 := pr3 i (by omega)
      have psc := hpresSC i hi
      exact ⟨p3.1.trans psc.1, p3.2.1.trans psc.2.1, p3.2.2.trans psc.2.2⟩
    · have hCtt : stC.totalTags = stI.totalTags + 1 := rfl
      have hOtt : stO.totalTags = st.totalTags + 1 := rfl
      omega
    · intro i hi1 hi2
      by_cases hC : i < stC.tags.length
      · have p3 := (pr3 i hC).2.1
        by_cases hio : i = st.tags.length
        · subst hio
          right
          rw [p3]
          show ((setTagClosed
            (stI.tags ++ [⟨c.id, c.flags, c.contentLength, some st.nodes.length⟩])
            st.tags.length).getD st.tags.length dummyTag).flags.flClosed = true
          unfold setTagClosed
          dsimp only
          rw [getD_set_self_of_lt _ _ _ _ (by rw [List.length_append]; omega)]
        · by_cases hiI : i < stI.tags.length
          · have hflagsCI : (stC.tags.getD i dummyTag).flags
                = (stI.tags.getD i dummyTag).flags := by
              show ((setTagClosed _ _).getD i _).flags = _
              unfold setTagClosed
              dsimp only
              rw [getD_set_of_ne _ _ _ _ _ (by omega),
                getD_append_lt _ _ _ _ hiI]
            rcases nc2 i (by omega) hiI with hcase | hcase
            · left
              rw [p3, hflagsCI]
              exact hcase
            · right
              rw [p3, hflagsCI]
              exact hcase
          · have hieq : i = stI.tags.length := by omega
            subst hieq
            left
            rw [p3]
            show ((setTagClosed
              (stI.tags ++ [⟨c.id, c.flags, c.contentLength, some st.nodes.length⟩])
              st.tags.length).getD stI.tags.length dummyTag).flags.flClosing = true
            unfold setTagClosed
            dsimp only
            rw [getD_set_of_ne _ _ _ _ _ (by omega), getD_append_self_len]
            exact hcclosing
      · exact nc3 i (by omega) hi2

lemma step_empty_eq (t : InputTag) :
    rspamd_html_process_tag {} t = rspamd_html_process_tag
      { tags := [], nodes := [⟨none, none⟩], curLevel := some 0,
        totalTags := 0, tooManyTags := false, unbalanced := false } t := rfl

set_option maxRecDepth 40000 in
/-- C6 counterexample: `<blockquote><blockquote></blockquote></blockquote>` is
well formed and fully nested with no stray closers, yet the unbalanced flag is
set: blockquote's table entry lacks `FL_BLOCK`, so the second opening tag
triggers the bad-nesting repair (`parent->id == tag->id` with a non-block
parent). -/
theorem C6_counterexample_nested_blockquote :
    (⟨"blockquote", 11, { }⟩ : html_tag_def) ∈ tag_defs ∧
    specNestedSeq [openTag ⟨"blockquote", 11, { }⟩, openTag ⟨"blockquote", 11, { }⟩,
      closeTag ⟨"blockquote", 11, { }⟩, closeTag ⟨"blockquote", 11, { }⟩] ∧
    (rspamd_html_process_tags
      [openTag ⟨"blockquote", 11, { }⟩, openTag ⟨"blockquote", 11, { }⟩,
        closeTag ⟨"blockquote", 11, { }⟩,
        closeTag ⟨"blockquote", 11, { }⟩]).unbalanced = true := by
  refine ⟨by decide, ?_, ?_⟩
  · exact specNestedSeq.elem _ _ [openTag ⟨"blockquote", 11, { }⟩,
      closeTag ⟨"blockquote", 11, { }⟩] [] (by decide) (by decide) (by decide)
      (by decide) (by decide) (by decide) (by decide)
      (specNestedSeq.elem _ _ [] [] (by decide) (by decide) (by decide) (by decide)
        (by decide) (by decide) (by decide) specNestedSeq.nil specNestedSeq.nil)
      specNestedSeq.nil
  · decide

/-- C6 (amended): for well-formed fully nested input whose elements moreover
never sit directly inside a same-id element lacking `FL_BLOCK` (and at most
8192 tags), the unbalanced flag is never set and every materialized
non-closing tag is marked closed. -/
theorem C6_balance (l : List InputTag) (h : NestedSeq none l)
    (hlen : l.length ≤ max_tags) :
    (rspamd_html_process_tags l).unbalanced = false ∧
    (∀ i, i < (rspamd_html_process_tags l).tags.length →
      ((rspamd_html_process_tags l).tags.getD i dummyTag).flags.flClosing = true ∨
      ((rspamd_html_process_tags l).tags.getD i dummyTag).flags.flClosed = true) := by
  cases l with
  | nil =>
    exact ⟨rfl, fun i hi => absurd hi (by simp [rspamd_html_process_tags])⟩
  | cons t rest =>
    have hfold : rspamd_html_process_tags (t :: rest)
        = List.foldl rspamd_html_process_tag
          { tags := [], nodes := [⟨none, none⟩], curLevel := some 0,
            totalTags := 0, tooManyTags := false, unbalanced := false }
          (t :: rest) := by
      unfold rspamd_html_process_tags
      rw [List.foldl_cons, List.foldl_cons, step_empty_eq]
    have hrun := nested_run h
      { tags := [], nodes := [⟨none, none⟩], curLevel := some 0,
        totalTags := 0, tooManyTags := false, unbalanced := false } 0 rfl
      (by simp) rfl (by simpa using hlen)
    obtain ⟨u, m, c0, nd, tl, pr, tt, nc⟩ := hrun
    rw [hfold]
    exact ⟨u, fun i hi => nc i (by simp) hi⟩

/-- Witness for `C6_balance` on a concrete well-formed document. -/
theorem C6_balance_witness :
    (rspamd_html_process_tags [openTag ⟨"div", 25, { flBlock := true }⟩,
      closeTag ⟨"div", 25, { flBlock := true }⟩]).unbalanced = false ∧
    (∀ i, i < (rspamd_html_process_tags [openTag ⟨"div", 25, { flBlock := true }⟩,
        closeTag ⟨"div", 25, { flBlock := true }⟩]).tags.length →
      ((rspamd_html_process_tags [openTag ⟨"div", 25, { flBlock := true }⟩,
        closeTag ⟨"div", 25, { flBlock := true }⟩]).tags.getD i
          dummyTag).flags.flClosing = true ∨
      ((rspamd_html_process_tags [openTag ⟨"div", 25, { flBlock := true }⟩,
        closeTag ⟨"div", 25, { flBlock := true }⟩]).tags.getD i
          dummyTag).flags.flClosed = true) :=
  C6_balance _
    (NestedSeq.elem none _ _ [] [] (by decide) (by decide) (by decide) (by decide)
      (fun a ha => Option.noConfusion ha) (by decide) (by decide) (by decide)
      (NestedSeq.nil _) (NestedSeq.nil _))
    (by decide)

end Rspamd
